import Mathlib

/-!
# ks::ecs — entity/component storage core (`ks/ecs/KsEcs.hpp`)

A shallow embedding of the component type registry, the mask codec, the component
stores and the scene of `KsEcs.hpp`, followed by theorems about them.

Conventions of the embedding

* Entity ids and `std::vector` sizes are natural numbers (they index vectors held in
  memory, so the arithmetic `entity_id+25` and `size()-25` is not reduced).
* `uint` counters are reduced modulo `2^32`; a mask of type `Mask<SceneKey>` is a
  natural number below `2^w`, `w` the width of the selected type, and every store to
  a mask is reduced modulo `2^w`.
* An access outside a `std::vector` or through a null `unique_ptr` has no defined
  behaviour in the source; the embedding returns `none` there.
* A reference to the scene held by a store (`m_scene`) is rendered by passing the
  entity records (`Scene::GetEntityList()`) in and out.
-/

namespace ks.ecs

/-! ## Scene key and mask type -/

/-- The `SceneKey` template parameter: it carries `max_component_types`. -/
structure SceneKey where
  max_component_types : Nat
  deriving Repr, DecidableEq

namespace detail

/-- `detail::GetMaskTypeIndex(bits)`. -/
def GetMaskTypeIndex (bits : Nat) : Nat :=
  if bits ≤ 8 then 0 else if bits ≤ 16 then 1 else if bits ≤ 2 then 2 else 3

/-- Width in bits of element `i` of `std::tuple<u8,u16,u32,u64>`. -/
def maskTupleBits (i : Nat) : Nat :=
  match i with
  | 0 => 8
  | 1 => 16
  | 2 => 32
  | _ => 64

/-- Width in bits of `detail::Mask<SceneKey>`. -/
def MaskBits (K : SceneKey) : Nat :=
  maskTupleBits (GetMaskTypeIndex K.max_component_types)

/-- The conversion `static_cast<Mask<SceneKey>>(x)` of an unsigned value. -/
def toMask (K : SceneKey) (x : Nat) : Nat :=
  x % 2 ^ MaskBits K

/-- The expression `Mask(1) << i`, as stored in a `Mask<SceneKey>`. -/
def maskBit (K : SceneKey) (i : Nat) : Nat :=
  toMask K (1 <<< i)

/-- The expression `~(Mask(1) << i)`, as stored in a `Mask<SceneKey>`. -/
def maskBitCompl (K : SceneKey) (i : Nat) : Nat :=
  (2 ^ MaskBits K - 1) ^^^ maskBit K i

end detail

/-! ## Entities -/

/-- The record `Scene::Entity`. -/
structure Entity where
  valid : Bool := false
  mask : Nat := 0
  deriving Repr, DecidableEq

/-! ## Component stores -/

/-- `std::vector::resize(n)`: truncates, or appends value-initialised elements. -/
def vecResize {α : Type} [Inhabited α] (l : List α) (n : Nat) : List α :=
  l.take n ++ List.replicate (n - l.length) default

/-- `ComponentListBase::addComponentToEntityMask<ComponentType>(entity_id)`, where
`index` is `detail::Component<SceneKey,ComponentType>::index`. -/
def addComponentToEntityMask (K : SceneKey) (index : Nat) (ents : List Entity)
    (entity_id : Nat) : Option (List Entity) :=
  match ents[entity_id]? with
  | none => none
  | some entity =>
    some (ents.set entity_id
      { entity with mask := detail.toMask K (entity.mask ||| detail.maskBit K index) })

/-- `ComponentListBase::removeComponentFromEntityMask<ComponentType>(entity_id)`. -/
def removeComponentFromEntityMask (K : SceneKey) (index : Nat) (ents : List Entity)
    (entity_id : Nat) : Option (List Entity) :=
  match ents[entity_id]? with
  | none => none
  | some entity =>
    some (ents.set entity_id
      { entity with mask := detail.toMask K (entity.mask &&& detail.maskBitCompl K index) })

/-- The class `ComponentList<SceneKey,ComponentType>`: `index` is the static constant
`detail::Component<SceneKey,ComponentType>::index` of its component type and
`m_list_data` the sparse list. -/
structure ComponentList (α : Type) where
  index : Nat
  m_list_data : List α

namespace ComponentList

variable {α : Type} [Inhabited α]

/-- `ComponentList::Create(entity_id, args...)`; `v` is `ComponentType(args...)`.
Returns the store and the entity records after the call; the guard on `entity_id`
stands for the unchecked `m_list_data[entity_id]`. -/
def Create (K : SceneKey) (self : ComponentList α) (ents : List Entity)
    (entity_id : Nat) (v : α) : Option (ComponentList α × List Entity) :=
  let data :=
    if ¬ (self.m_list_data.length > entity_id) then
      vecResize self.m_list_data (entity_id + 25)
    else self.m_list_data
  if entity_id < data.length then
    let data := data.set entity_id v
    match addComponentToEntityMask K self.index ents entity_id with
    | none => none
    | some ents => some ({ self with m_list_data := data }, ents)
  else none

/-- `ComponentList::Remove(entity_id)`. The difference `diff` is the signed
`sint(m_list_data.size()) - GetEntityList().size()`, for vector sizes within the range
of `sint`; the guard on `entity_id` stands for the unchecked `m_list_data[entity_id]`. -/
def Remove (K : SceneKey) (self : ComponentList α) (ents : List Entity)
    (entity_id : Nat) : Option (ComponentList α × List Entity) :=
  if entity_id < self.m_list_data.length then
    let data := self.m_list_data.set entity_id default
    let diff : Int := (data.length : Int) - (ents.length : Int)
    let data := if diff > 25 then vecResize data (data.length - 25) else data
    match removeComponentFromEntityMask K self.index ents entity_id with
    | none => none
    | some ents => some ({ self with m_list_data := data }, ents)
  else none

/-- `ComponentList::GetComponent(entity_id)`. -/
def GetComponent (self : ComponentList α) (entity_id : Nat) : Option α :=
  self.m_list_data[entity_id]?

/-- `ComponentList::GetSparseList()`. -/
def GetSparseList (self : ComponentList α) : List α :=
  self.m_list_data

/-- The sparse list after the growth step of `Create`. -/
def grown (self : ComponentList α) (entity_id : Nat) : List α :=
  if ¬ (self.m_list_data.length > entity_id) then
    vecResize self.m_list_data (entity_id + 25)
  else self.m_list_data

/-- The sparse list after the reset and trim steps of `Remove`. -/
def trimmed (self : ComponentList α) (ents : List Entity) (entity_id : Nat) : List α :=
  let data := self.m_list_data.set entity_id default
  if ((data.length : Int) - (ents.length : Int)) > 25 then
    vecResize data (data.length - 25)
  else data

end ComponentList

/-- The class `ComponentListBase<SceneKey>`: a store whose component type is hidden,
as held by the scene behind a `unique_ptr`. -/
structure ComponentListBase where
  ComponentType : Type
  [inst : Inhabited ComponentType]
  list : ComponentList ComponentType

/-- The virtual `ComponentListBase::Remove(entity_id)`. -/
def ComponentListBase.Remove (K : SceneKey) (self : ComponentListBase)
    (ents : List Entity) (entity_id : Nat) : Option (ComponentListBase × List Entity) :=
  match @ComponentList.Remove self.ComponentType self.inst K self.list ents entity_id with
  | none => none
  | some (l, ents) => some ({ self with list := l }, ents)

/-- One call `Create(entity_id, value)` on a store, with the store's type hidden. -/
structure CreateCall where
  ComponentType : Type
  [inst : Inhabited ComponentType]
  list : ComponentList ComponentType
  value : ComponentType

/-- The store a call is made on. -/
def CreateCall.store (c : CreateCall) : ComponentListBase :=
  @ComponentListBase.mk c.ComponentType c.inst c.list

/-- Runs one call of `Create` for entity `entity_id`. -/
def CreateCall.run (K : SceneKey) (c : CreateCall) (ents : List Entity)
    (entity_id : Nat) : Option (ComponentListBase × List Entity) :=
  match @ComponentList.Create c.ComponentType c.inst K c.list ents entity_id c.value with
  | none => none
  | some (l, ents) => some (@ComponentListBase.mk c.ComponentType c.inst l, ents)

/-- Runs the calls of `Create` for entity `entity_id` one after the other, each on its
own store; returns the stores after their call and the entity records. -/
def createAll (K : SceneKey) (entity_id : Nat) :
    List CreateCall → List Entity → Option (List ComponentListBase × List Entity)
  | [], ents => some ([], ents)
  | c :: cs, ents =>
    match c.run K ents entity_id with
    | none => none
    | some (st, ents) =>
      match createAll K entity_id cs ents with
      | none => none
      | some (sts, ents) => some (st :: sts, ents)

/-! ## Component type registry -/

namespace detail

/-- The only error of the registry, `ComponentLimitReached<SceneKey>`. -/
inductive Error where
  | ComponentLimitReached
  deriving Repr, DecidableEq

/-- The class `ComponentCount<SceneKey>`: its state is the function-local static
`count` of `increment`. -/
structure ComponentCount where
  count : Nat := 0
  deriving Repr, DecidableEq

/-- `ComponentCount::increment()`: `return count++;` on a `uint`. -/
def ComponentCount.increment (s : ComponentCount) : Nat × ComponentCount :=
  (s.count, { count := (s.count + 1) % 2 ^ 32 })

/-- `ComponentCount::next<T>()`; the debug log record is left out. The counter keeps
the increment also when the exception is thrown. -/
def ComponentCount.next (K : SceneKey) (s : ComponentCount) :
    Except Error Nat × ComponentCount :=
  let (c, s) := s.increment
  if c = K.max_component_types then (.error .ComponentLimitReached, s)
  else (.ok c, s)

/-- The static constants `Component<SceneKey,T>::index` initialised so far, in the
order of their initialisation, and the counter they are drawn from. -/
structure Registry (τ : Type) where
  counter : ComponentCount := {}
  index : List (τ × Nat) := []

/-- Reading `Component<SceneKey,T>::index`: a constant that is already initialised
is returned as it is; otherwise it is initialised with `ComponentCount::next<T>()`,
and stays uninitialised when that throws. -/
def Component.index {τ : Type} [DecidableEq τ] (K : SceneKey) (r : Registry τ) (T : τ) :
    Except Error Nat × Registry τ :=
  match r.index.lookup T with
  | some i => (.ok i, r)
  | none =>
    match r.counter.next K with
    | (.ok c, s) => (.ok c, { counter := s, index := r.index ++ [(T, c)] })
    | (.error e, s) => (.error e, { r with counter := s })

/-- Reads `Component<SceneKey,T>::index` for the types of `ts` in order; returns the
outcome of every read and the registry at the end. -/
def Component.indexAll {τ : Type} [DecidableEq τ] (K : SceneKey) :
    Registry τ → List τ → List (Except Error Nat) × Registry τ
  | r, [] => ([], r)
  | r, T :: ts =>
    let (o, r) := Component.index K r T
    let (os, r) := Component.indexAll K r ts
    (o :: os, r)

/-- The registry holds indices `0 .. pre.length - 1` for the types `pre`, in this order,
and its counter stands at `pre.length`. -/
def Registry.Dense {τ : Type} (r : Registry τ) (pre : List τ) : Prop :=
  r.counter.count = pre.length ∧ r.index = pre.zip (List.range pre.length)

/-- `std::bitset<N>::set(pos)` on the value of the bitset; `none` stands for the
`std::out_of_range` it throws when `pos` is not below `N`. -/
def bitsetSet (N : Nat) (bits pos : Nat) : Option Nat :=
  if pos < N then some (bits ||| 1 <<< pos) else none

/-- `std::bitset<N>::to_ulong()` for a 64-bit `unsigned long`; `none` stands for the
`std::overflow_error` of a value that does not fit. -/
def bitsetToUlong (bits : Nat) : Option Nat :=
  if bits < 2 ^ 64 then some bits else none

/-- `detail::SetComponentType<SceneKey,T>(mask)`; `index` is `Component<SceneKey,T>::index`. -/
def SetComponentType (K : SceneKey) (index : Nat) (mask : Nat) : Option Nat :=
  bitsetSet K.max_component_types mask index

/-- `detail::GetComponentMaskBitSet<SceneKey,Args...>()`; `args` lists
`Component<SceneKey,T>::index` for the types `T` of the pack, in order. -/
def GetComponentMaskBitSet (K : SceneKey) (args : List Nat) : Option Nat :=
  args.foldlM (fun mask index => SetComponentType K index mask) 0

/-- `detail::GetComponentMask<SceneKey,Args...>()`. -/
def GetComponentMask (K : SceneKey) (args : List Nat) : Option Nat :=
  match GetComponentMaskBitSet K args with
  | none => none
  | some bits =>
    match bitsetToUlong bits with
    | none => none
    | some u => some (toMask K u)

end detail

/-! ## Scene -/

/-- The operations of the external `RecycleIndexList<Entity>` that change which ids
are in use. `R` is its private bookkeeping; the vector behind `GetList()` is passed
in and out. `Add` returns the id it issued. -/
structure RecycleIndexList (R : Type) where
  Add : R → List Entity → Entity → Nat × R × List Entity
  Remove : R → List Entity → Nat → R × List Entity

/-- The state of a `Scene<SceneKey>`: the recycler `m_list_entities` (bookkeeping and
the vector behind `GetList()`) and the array `m_list_cm_lists`, where `none` is a
null pointer. -/
structure Scene (R : Type) where
  recycler : R
  entities : List Entity
  m_list_cm_lists : List (Option ComponentListBase)

namespace Scene

variable {R : Type}

/-- `Scene::CreateEntity()`. -/
def CreateEntity (L : RecycleIndexList R) (s : Scene R) : Nat × Scene R :=
  let entity : Entity := { valid := true, mask := 0 }
  let (id, r, ents) := L.Add s.recycler s.entities entity
  (id, { s with recycler := r, entities := ents })

/-- `Scene::GetEntityList()`. -/
def GetEntityList (s : Scene R) : List Entity :=
  s.entities

/-- The loop of `Scene::RemoveEntity` over the component indices `is`. The mask is
read through the reference `entity` at every turn. The last component of the state
records, in order, the indices whose store had `Remove(id)` invoked. -/
def removeComponents (K : SceneKey) (id : Nat) :
    List Nat → List (Option ComponentListBase) × List Entity × List Nat →
      Option (List (Option ComponentListBase) × List Entity × List Nat)
  | [], st => some st
  | i :: is, (cms, ents, calls) =>
    match ents[id]? with
    | none => none
    | some entity =>
      if entity.mask &&& (1 <<< i) ≠ 0 then
        match cms[i]? with
        | some (some cm) =>
          match cm.Remove K ents id with
          | none => none
          | some (cm, ents) => removeComponents K id is (cms.set i (some cm), ents, calls ++ [i])
        | _ => none
      else removeComponents K id is (cms, ents, calls)

/-- The part of `Scene::RemoveEntity(id)` before `m_list_entities.Remove(id)`: returns
the scene at the moment the id is handed back and the indices of the stores on which
`Remove(id)` was invoked. -/
def RemoveEntity_components (K : SceneKey) (s : Scene R) (id : Nat) :
    Option (Scene R × List Nat) :=
  match s.entities[id]? with
  | none => none
  | some entity =>
    let r :=
      if entity.mask > 0 then
        removeComponents K id (List.range K.max_component_types)
          (s.m_list_cm_lists, s.entities, [])
      else some (s.m_list_cm_lists, s.entities, [])
    match r with
    | none => none
    | some (cms, ents, calls) => some ({ s with entities := ents, m_list_cm_lists := cms }, calls)

/-- `m_list_entities.Remove(id)` on a scene. -/
def release (L : RecycleIndexList R) (s : Scene R) (id : Nat) : Scene R :=
  let (r, ents) := L.Remove s.recycler s.entities id
  { s with recycler := r, entities := ents }

/-- `Scene::RemoveEntity(id)`. -/
def RemoveEntity (L : RecycleIndexList R) (K : SceneKey) (s : Scene R) (id : Nat) :
    Option (Scene R) :=
  match RemoveEntity_components K s id with
  | none => none
  | some (s, _) => some (release L s id)

end Scene

/-! ## Scene: construction, registration, entity ids -/

namespace Scene

variable {R : Type}

/-- `Scene::GetEntityIdList()`: the loop over `0 .. list_entities.size()-1` that pushes
the index of every record marked valid. The method is `const`: it returns the list
and has no scene to return. -/
def GetEntityIdList (s : Scene R) : List Nat :=
  (List.range s.entities.length).foldl
    (fun m_list_ent_ids i =>
      match s.entities[i]? with
      | some entity => if entity.valid then m_list_ent_ids ++ [i] else m_list_ent_ids
      | none => m_list_ent_ids)
    []

/-- The constructor `Scene::Scene`: the first entity is created on the empty recycler
`r0` and its record is marked invalid; the array of stores holds null pointers. -/
def new (L : RecycleIndexList R) (r0 : R) (K : SceneKey) : Option (Scene R) :=
  let (invalid_entity, s) := CreateEntity L
    { recycler := r0, entities := [],
      m_list_cm_lists := List.replicate K.max_component_types none }
  match s.entities[invalid_entity]? with
  | none => none
  | some entity =>
    some { s with entities := s.entities.set invalid_entity { entity with valid := false } }

/-- `Scene::RegisterComponentList<ComponentType>(cm_container)`; `idx` is
`Component<ComponentType>::index`. -/
def RegisterComponentList (s : Scene R) (idx : Nat) (cm_container : ComponentListBase) :
    Option (Scene R) :=
  match s.m_list_cm_lists[idx]? with
  | none => none
  | some none => some { s with m_list_cm_lists := s.m_list_cm_lists.set idx (some cm_container) }
  | some (some _) => some s

/-- `Scene::GetComponentList<ComponentType>()`; `idx` is
`Component<ComponentType>::index`. The result `some none` is the null pointer; `none`
stands for an index outside the array. -/
def GetComponentList (s : Scene R) (idx : Nat) : Option (Option ComponentListBase) :=
  s.m_list_cm_lists[idx]?

end Scene

/-- Modelled from the spec: the contract of the external slot recycler
`RecycleIndexList` (its source is not part of this repository). `used r k` says that
id `k` was issued and not freed since; `wf r n` that the bookkeeping `r` fits a vector
of `n` slots. `Add` issues a reclaimed slot or the next new one, never an id in use,
and stores the value there and nowhere else; `Remove` frees the id, keeps the vector
dense and leaves every other slot as it was (the freed slot is unspecified). -/
structure RecycleIndexList.Contract {R : Type} (L : RecycleIndexList R)
    (used : R → Nat → Prop) (wf : R → Nat → Prop) : Prop where
  add_wf : ∀ r ents e, wf r ents.length →
    wf (L.Add r ents e).2.1 (L.Add r ents e).2.2.length
  add_le : ∀ r ents e, wf r ents.length → (L.Add r ents e).1 ≤ ents.length
  add_list : ∀ r ents e, wf r ents.length →
    (L.Add r ents e).2.2 =
      if (L.Add r ents e).1 < ents.length then ents.set (L.Add r ents e).1 e
      else ents ++ [e]
  add_fresh : ∀ r ents e, wf r ents.length → ¬ used r (L.Add r ents e).1
  add_used : ∀ r ents e k, wf r ents.length →
    (used (L.Add r ents e).2.1 k ↔ k = (L.Add r ents e).1 ∨ used r k)
  remove_wf : ∀ r ents id, wf r ents.length → used r id →
    wf (L.Remove r ents id).1 (L.Remove r ents id).2.length
  remove_length : ∀ r ents id, wf r ents.length → used r id →
    (L.Remove r ents id).2.length = ents.length
  remove_other : ∀ r ents id k, wf r ents.length → used r id → k ≠ id →
    (L.Remove r ents id).2[k]? = ents[k]?
  remove_used : ∀ r ents id k, wf r ents.length → used r id →
    (used (L.Remove r ents id).1 k ↔ used r k ∧ k ≠ id)
  used_lt : ∀ r n k, wf r n → used r k → k < n

/-! ## Runs of calls on a scene -/

namespace Scene

variable {R : Type}

/-- The entity `id` is live: its id is in use and its record is marked valid. -/
def live (used : R → Nat → Prop) (s : Scene R) (id : Nat) : Prop :=
  used s.recycler id ∧ ∃ e, s.entities[id]? = some e ∧ e.valid = true

/-- One call on a scene that returns: `CreateEntity`, `RemoveEntity` on a live
entity, `RegisterComponentList` of an empty store at the index of its own component
type, and `Create` or `Remove` on a registered store (on a live entity when `strict`
holds). -/
inductive Step (L : RecycleIndexList R) (used : R → Nat → Prop) (K : SceneKey)
    (strict : Prop) : Scene R → Scene R → Prop
  | createEntity (s : Scene R) : Step L used K strict s (CreateEntity L s).2
  | removeEntity (s s' : Scene R) (id : Nat) :
      live used s id → RemoveEntity L K s id = some s' → Step L used K strict s s'
  | register (s s' : Scene R) (cm : ComponentListBase) :
      cm.list.m_list_data = [] → RegisterComponentList s cm.list.index cm = some s' →
      Step L used K strict s s'
  | create (s : Scene R) (t : Nat) (cm : ComponentListBase) (id : Nat)
      (v : cm.ComponentType) (l : ComponentList cm.ComponentType) (ents : List Entity) :
      (strict → live used s id) →
      s.m_list_cm_lists[t]? = some (some cm) →
      @ComponentList.Create cm.ComponentType cm.inst K cm.list s.entities id v =
        some (l, ents) →
      Step L used K strict s
        { s with entities := ents,
                 m_list_cm_lists := s.m_list_cm_lists.set t
                   (some (@ComponentListBase.mk cm.ComponentType cm.inst l)) }
  | remove (s : Scene R) (t : Nat) (cm cm' : ComponentListBase) (id : Nat)
      (ents : List Entity) :
      (strict → live used s id) →
      s.m_list_cm_lists[t]? = some (some cm) →
      cm.Remove K s.entities id = some (cm', ents) →
      Step L used K strict s
        { s with entities := ents, m_list_cm_lists := s.m_list_cm_lists.set t (some cm') }

/-- The entity `i` owns the component of index `t`: it is live and bit `t` of its mask
is set. -/
def owns (used : R → Nat → Prop) (s : Scene R) (t i : Nat) : Prop :=
  live used s i ∧ ∃ e, s.entities[i]? = some e ∧ e.mask.testBit t = true

/-- The state kept by every call of a strict run: the recycler bookkeeping fits the
records, the array of stores has `max_component_types` slots, every registered store
sits at the index of its own component type, and a slot of a store holds the default
value unless its entity owns the component. -/
def SlotsInv (used : R → Nat → Prop) (wf : R → Nat → Prop) (K : SceneKey)
    (s : Scene R) : Prop :=
  wf s.recycler s.entities.length ∧
  s.m_list_cm_lists.length = K.max_component_types ∧
  ∀ (t : Nat) (cm : ComponentListBase), s.m_list_cm_lists[t]? = some (some cm) →
    cm.list.index = t ∧
    ∀ i, i < cm.list.m_list_data.length → ¬ owns used s t i →
      cm.list.m_list_data[i]? = some (@default _ cm.inst)

/-- A run: any number of calls one after the other. -/
def Steps (L : RecycleIndexList R) (used : R → Nat → Prop) (K : SceneKey)
    (strict : Prop) : Scene R → Scene R → Prop :=
  Relation.ReflTransGen (Step L used K strict)

end Scene

/-! ## Sample data for the concrete instances -/

/-- Two calls of `Create`, on a store of index 0 holding numbers and on a store of
index 1 holding booleans. -/
def sampleCalls : List CreateCall :=
  [{ ComponentType := Nat, list := { index := 0, m_list_data := [] }, value := 7 },
   { ComponentType := Bool, list := { index := 1, m_list_data := [] }, value := true }]

/-- A recycler that keeps the number of slots and a stack of freed ids: `Add` reuses
the id freed last, or appends a slot; `Remove` resets the slot and pushes the id. -/
def stackRecycler : RecycleIndexList (Nat × List Nat) where
  Add := fun r ents e =>
    match r.2 with
    | [] => (ents.length, (r.1 + 1, []), ents ++ [e])
    | id :: rest => (id, (r.1, rest), ents.set id e)
  Remove := fun r ents id => ((r.1, id :: r.2), ents.set id {})

/-- The ids in use of `stackRecycler`: the slots that are not on the stack. -/
def stackRecycler.used (r : Nat × List Nat) (k : Nat) : Prop :=
  k < r.1 ∧ k ∉ r.2

/-- The bookkeeping of `stackRecycler` fits a vector of `n` slots. -/
def stackRecycler.wf (r : Nat × List Nat) (n : Nat) : Prop :=
  r.1 = n ∧ r.2.Nodup ∧ ∀ k ∈ r.2, k < n

/-- The scene right after construction on `stackRecycler`, 8 component types. -/
def sampleStart : Scene (Nat × List Nat) where
  recycler := (1, [])
  entities := [{ valid := false, mask := 0 }]
  m_list_cm_lists := [none, none, none, none, none, none, none, none]

/-- The empty store of numbers, of index 0. -/
def sampleStore : ComponentListBase :=
  { ComponentType := Nat, list := { index := 0, m_list_data := [] } }

/-- `sampleStart` after `sampleStore` was registered. -/
def sampleRegistered : Scene (Nat × List Nat) where
  recycler := (1, [])
  entities := [{ valid := false, mask := 0 }]
  m_list_cm_lists := [some sampleStore, none, none, none, none, none, none, none]

/-- `sampleRegistered` after one `CreateEntity`, which returns id 1. -/
def sampleWithEntity : Scene (Nat × List Nat) :=
  (Scene.CreateEntity stackRecycler sampleRegistered).2

/-- `sampleWithEntity` after `Create(1, 7)` on the registered store. -/
def sampleWithComponent : Scene (Nat × List Nat) :=
  { sampleWithEntity with
    entities := [{ valid := false, mask := 0 }, { valid := true, mask := 1 }],
    m_list_cm_lists := sampleWithEntity.m_list_cm_lists.set 0
      (some (@ComponentListBase.mk Nat _
        { index := 0, m_list_data := (List.replicate 26 0).set 1 7 })) }

namespace detail

theorem MaskBits_cases (K : SceneKey) :
    MaskBits K = 8 ∨ MaskBits K = 16 ∨ MaskBits K = 64 := by
  unfold MaskBits GetMaskTypeIndex maskTupleBits
  by_cases h8 : K.max_component_types ≤ 8
  · simp [h8]
  · by_cases h16 : K.max_component_types ≤ 16
    · simp [h8, h16]
    · have h2 : ¬ K.max_component_types ≤ 2 := by omega
      simp [h8, h16, h2]

theorem le_MaskBits (K : SceneKey) (hK : K.max_component_types ≤ 64) :
    K.max_component_types ≤ MaskBits K := by
  unfold MaskBits GetMaskTypeIndex maskTupleBits
  by_cases h8 : K.max_component_types ≤ 8
  · simp [h8]
  · by_cases h16 : K.max_component_types ≤ 16
    · simp [h8, h16]
    · have h2 : ¬ K.max_component_types ≤ 2 := by omega
      simp [h8, h16, h2, hK]

theorem testBit_toMask (K : SceneKey) (x j : Nat) :
    (toMask K x).testBit j = (decide (j < MaskBits K) && x.testBit j) := by
  unfold toMask
  exact Nat.testBit_mod_two_pow x (MaskBits K) j

theorem testBit_maskBit (K : SceneKey) (i j : Nat) :
    (maskBit K i).testBit j = (decide (j < MaskBits K) && decide (i = j)) := by
  unfold maskBit
  rw [testBit_toMask, Nat.one_shiftLeft, Nat.testBit_two_pow]

theorem testBit_maskBitCompl (K : SceneKey) (i j : Nat) :
    (maskBitCompl K i).testBit j = (decide (j < MaskBits K) && !decide (i = j)) := by
  unfold maskBitCompl
  rw [Nat.testBit_xor, Nat.testBit_two_pow_sub_one, testBit_maskBit]
  by_cases h1 : j < MaskBits K <;> by_cases h2 : i = j <;> simp [h1, h2]

theorem testBit_of_lt_MaskBits {K : SceneKey} {m : Nat} (hm : m < 2 ^ MaskBits K)
    {j : Nat} (hj : ¬ j < MaskBits K) : m.testBit j = false := by
  apply Nat.testBit_lt_two_pow
  exact lt_of_lt_of_le hm (Nat.pow_le_pow_right (by decide) (by omega))

/-- Bits of a mask after `mask |= (Mask(1) << i)`. -/
theorem testBit_or_maskBit (K : SceneKey) (m i j : Nat) :
    (toMask K (m ||| maskBit K i)).testBit j =
      (decide (j < MaskBits K) && (m.testBit j || decide (i = j))) := by
  rw [testBit_toMask, Nat.testBit_or, testBit_maskBit]
  by_cases h1 : j < MaskBits K <;> simp [h1]

/-- Bits of a mask after `mask &= ~(Mask(1) << i)`. -/
theorem testBit_and_maskBitCompl (K : SceneKey) (m i j : Nat) :
    (toMask K (m &&& maskBitCompl K i)).testBit j =
      (decide (j < MaskBits K) && (m.testBit j && !decide (i = j))) := by
  rw [testBit_toMask, Nat.testBit_and, testBit_maskBitCompl]
  by_cases h1 : j < MaskBits K <;> simp [h1]

theorem toMask_lt (K : SceneKey) (x : Nat) : toMask K x < 2 ^ MaskBits K := by
  unfold toMask
  exact Nat.mod_lt _ (by positivity)

end detail

/-! ## Facts about `std::vector` operations -/

theorem length_vecResize {α : Type} [Inhabited α] (l : List α) (n : Nat) :
    (vecResize l n).length = n := by
  unfold vecResize
  simp only [List.length_append, List.length_take, List.length_replicate]
  omega

theorem getElem?_vecResize {α : Type} [Inhabited α] (l : List α) (n j : Nat)
    (hj : j < n) (hl : j < l.length) : (vecResize l n)[j]? = l[j]? := by
  unfold vecResize
  rw [List.getElem?_append]
  have : j < (List.take n l).length := by
    simp only [List.length_take]; omega
  rw [if_pos this, List.getElem?_take, if_pos hj]

/-! ## The entity records after a mask update -/

theorem addComponentToEntityMask_eq (K : SceneKey) (index : Nat) (ents : List Entity)
    (id : Nat) (e : Entity) (he : ents[id]? = some e) :
    addComponentToEntityMask K index ents id =
      some (ents.set id { e with mask := detail.toMask K (e.mask ||| detail.maskBit K index) }) := by
  unfold addComponentToEntityMask
  rw [he]

theorem removeComponentFromEntityMask_eq (K : SceneKey) (index : Nat) (ents : List Entity)
    (id : Nat) (e : Entity) (he : ents[id]? = some e) :
    removeComponentFromEntityMask K index ents id =
      some (ents.set id
        { e with mask := detail.toMask K (e.mask &&& detail.maskBitCompl K index) }) := by
  unfold removeComponentFromEntityMask
  rw [he]

namespace ComponentList

variable {α : Type} [Inhabited α]

theorem lt_length_grown (self : ComponentList α) (id : Nat) :
    id < (self.grown id).length := by
  unfold grown
  split
  · rw [length_vecResize]; omega
  · omega

theorem Create_eq (K : SceneKey) (self : ComponentList α) (ents : List Entity)
    (id : Nat) (v : α) (e : Entity) (he : ents[id]? = some e) :
    self.Create K ents id v =
      some ({ self with m_list_data := (self.grown id).set id v },
        ents.set id
          { e with mask := detail.toMask K (e.mask ||| detail.maskBit K self.index) }) := by
  have h := self.lt_length_grown id
  unfold grown at h
  unfold Create grown
  simp only [h, if_true, addComponentToEntityMask_eq K self.index ents id e he]

theorem Remove_eq (K : SceneKey) (self : ComponentList α) (ents : List Entity)
    (id : Nat) (e : Entity) (he : ents[id]? = some e)
    (hid : id < self.m_list_data.length) :
    self.Remove K ents id =
      some ({ self with m_list_data := self.trimmed ents id },
        ents.set id
          { e with mask := detail.toMask K (e.mask &&& detail.maskBitCompl K self.index) }) := by
  unfold Remove trimmed
  simp only [hid, if_true, removeComponentFromEntityMask_eq K self.index ents id e he]

end ComponentList

end ks.ecs

namespace ks.ecs

/-! ## Component stores: what `Create` and `Remove` do -/

namespace ComponentList

variable {α : Type} [Inhabited α]

theorem getElem?_grown_set_self (self : ComponentList α) (id : Nat) (v : α) :
    ((self.grown id).set id v)[id]? = some v :=
  List.getElem?_set_self (self.lt_length_grown id)

theorem getElem?_grown_set_ne (self : ComponentList α) (id j : Nat) (v : α)
    (hne : j ≠ id) (hj : j < self.m_list_data.length) :
    ((self.grown id).set id v)[j]? = self.m_list_data[j]? := by
  rw [List.getElem?_set_ne (Ne.symm hne)]
  unfold grown
  split
  · exact getElem?_vecResize _ _ _ (by omega) hj
  · rfl

theorem getElem?_trimmed (self : ComponentList α) (ents : List Entity) (id j : Nat)
    (hj : j < (self.trimmed ents id).length) :
    (self.trimmed ents id)[j]? = (self.m_list_data.set id default)[j]? := by
  unfold trimmed at hj ⊢
  simp only [List.length_set] at hj ⊢
  split
  · rename_i h
    rw [if_pos h, length_vecResize] at hj
    exact getElem?_vecResize _ _ _ hj (by rw [List.length_set]; omega)
  · rfl

theorem length_trimmed_le (self : ComponentList α) (ents : List Entity) (id : Nat) :
    (self.trimmed ents id).length ≤ self.m_list_data.length := by
  unfold trimmed
  simp only [List.length_set]
  split
  · rw [length_vecResize]; omega
  · rw [List.length_set]

/-- C1: after `Create(id, v)` on a store of a component type whose index is below
`max_component_types` (at most 64), for an id of the entity records, the call returns,
bit `Component<T>::index` of the entity's mask is set and `GetComponent(id)`, which
is `GetSparseList()[id]`, is `v`; the store before the call is arbitrary. -/
theorem Create_sets_bit_and_value (K : SceneKey) (hK : K.max_component_types ≤ 64)
    (self : ComponentList α) (hidx : self.index < K.max_component_types)
    (ents : List Entity) (id : Nat) (v : α) (hid : id < ents.length) :
    ∃ st ents' e', self.Create K ents id v = some (st, ents') ∧
      ents'[id]? = some e' ∧ e'.mask.testBit self.index = true ∧
      st.GetComponent id = some v ∧ st.GetSparseList[id]? = some v := by
  have he : ents[id]? = some ents[id] := List.getElem?_eq_getElem hid
  refine ⟨_, _, _, Create_eq K self ents id v _ he, List.getElem?_set_self hid, ?_, ?_, ?_⟩
  · have hw := detail.le_MaskBits K hK
    simp only [detail.testBit_or_maskBit]
    have : self.index < detail.MaskBits K := by omega
    simp [this]
  · exact getElem?_grown_set_self self id v
  · exact getElem?_grown_set_self self id v

/-- C1, at a concrete input: an empty store of index 0 under a key with 8 component
types, entity 1 of two records, value 7. -/
theorem Create_sets_bit_and_value_witness :
    ∃ st ents' e',
      (({ index := 0, m_list_data := [] } : ComponentList Nat).Create
        { max_component_types := 8 }
        [{ valid := false, mask := 0 }, { valid := true, mask := 0 }] 1 7) = some (st, ents') ∧
      ents'[1]? = some e' ∧ e'.mask.testBit 0 = true ∧
      st.GetComponent 1 = some 7 ∧ st.GetSparseList[1]? = some 7 :=
  Create_sets_bit_and_value { max_component_types := 8 } (by decide)
    { index := 0, m_list_data := [] } (by decide)
    [{ valid := false, mask := 0 }, { valid := true, mask := 0 }] 1 7 (by decide)

theorem mask_scenario_values (K : SceneKey) :
    detail.toMask K (0 ||| detail.maskBit K 0) = 1 ∧
    detail.toMask K (1 ||| detail.maskBit K 1) = 3 ∧
    detail.toMask K (3 &&& detail.maskBitCompl K 0) = 2 := by
  unfold detail.maskBitCompl detail.maskBit detail.toMask
  rcases detail.MaskBits_cases K with h | h | h <;> rw [h] <;> decide

/-- C4: `Create(id, v)` and `Remove(id)` on the store of type `T` return entity
records of the same length in which every record other than `id` is unchanged and the
record of `id` keeps its valid flag and every mask bit other than `Component<T>::index`.
From mask 0, with `A` and `B` at indices 0 and 1: `Create` on `A` gives mask 1, then
`Create` on `B` gives 3, then `Remove` on `A` gives 2. -/
theorem Create_Remove_mask_frame (K : SceneKey) (self : ComponentList α)
    (ents : List Entity) (id : Nat) (v : α) (e : Entity) (he : ents[id]? = some e)
    (hm : e.mask < 2 ^ detail.MaskBits K) :
    (∃ st ents' e', self.Create K ents id v = some (st, ents') ∧
      ents'.length = ents.length ∧ ents'[id]? = some e' ∧ e'.valid = e.valid ∧
      (∀ b, b ≠ self.index → e'.mask.testBit b = e.mask.testBit b) ∧
      ∀ j, j ≠ id → ents'[j]? = ents[j]?) ∧
    (id < self.m_list_data.length →
      ∃ st ents' e', self.Remove K ents id = some (st, ents') ∧
        ents'.length = ents.length ∧ ents'[id]? = some e' ∧ e'.valid = e.valid ∧
        (∀ b, b ≠ self.index → e'.mask.testBit b = e.mask.testBit b) ∧
        ∀ j, j ≠ id → ents'[j]? = ents[j]?) ∧
    (e.mask = 0 → ∀ (β : Type) (_ : Inhabited β) (B : ComponentList β) (w : β),
      self.index = 0 → B.index = 1 →
      ∃ a1 ents1 b1 ents2 a2 ents3,
        self.Create K ents id v = some (a1, ents1) ∧
        ents1[id]? = some { e with mask := 1 } ∧
        B.Create K ents1 id w = some (b1, ents2) ∧
        ents2[id]? = some { e with mask := 3 } ∧
        a1.Remove K ents2 id = some (a2, ents3) ∧
        ents3[id]? = some { e with mask := 2 }) := by
  have hid : id < ents.length := by
    rcases Nat.lt_or_ge id ents.length with h | h
    · exact h
    · rw [List.getElem?_eq_none h] at he; cases he
  refine ⟨?_, ?_, ?_⟩
  · refine ⟨_, _, _, Create_eq K self ents id v e he, List.length_set _ _ _,
      List.getElem?_set_self hid, rfl, ?_, fun j hj => List.getElem?_set_ne (Ne.symm hj)⟩
    intro b hb
    simp only [detail.testBit_or_maskBit]
    by_cases hb' : b < detail.MaskBits K
    · simp [hb', Ne.symm hb]
    · simp [hb', detail.testBit_of_lt_MaskBits hm hb']
  · intro hcap
    refine ⟨_, _, _, Remove_eq K self ents id e he hcap, List.length_set _ _ _,
      List.getElem?_set_self hid, rfl, ?_, fun j hj => List.getElem?_set_ne (Ne.symm hj)⟩
    intro b hb
    simp only [detail.testBit_and_maskBitCompl]
    by_cases hb' : b < detail.MaskBits K
    · simp [hb', Ne.symm hb]
    · simp [hb', detail.testBit_of_lt_MaskBits hm hb']
  · intro h0 β _ B w hA hB
    obtain ⟨v1, v2, v3⟩ := mask_scenario_values K
    have e1 : (ents.set id { e with mask := 1 })[id]? = some { e with mask := 1 } :=
      List.getElem?_set_self hid
    have hid1 : id < (ents.set id { e with mask := 1 }).length := by
      rw [List.length_set]; exact hid
    have e2 : ((ents.set id { e with mask := 1 }).set id { e with mask := 3 })[id]? =
        some { e with mask := 3 } := List.getElem?_set_self hid1
    have hid2 : id < ((ents.set id { e with mask := 1 }).set id { e with mask := 3 }).length := by
      rw [List.length_set]; exact hid1
    have c1 := Create_eq K self ents id v e he
    rw [h0, hA, v1] at c1
    have c2 := Create_eq K B _ id w _ e1
    rw [hB] at c2
    simp only [v2] at c2
    have c3 := Remove_eq K { self with m_list_data := (self.grown id).set id v } _ id _ e2
      (by simp only [List.length_set]; exact self.lt_length_grown id)
    simp only [hA, v3] at c3
    exact ⟨_, _, _, _, _, _, c1, e1, c2, e2, c3, List.getElem?_set_self hid2⟩

/-- C4, at a concrete input: stores `A` and `B` of indices 0 and 1 under a key with 8
component types, entity 1 of two records with mask 0. -/
theorem Create_Remove_mask_frame_witness :
    ([{ valid := false, mask := 0 }, { valid := true, mask := 0 }] : List Entity)[1]? =
        some { valid := true, mask := 0 } ∧
    ∃ a1 ents1 b1 ents2 a2 ents3,
      (({ index := 0, m_list_data := [] } : ComponentList Nat).Create
        { max_component_types := 8 }
        [{ valid := false, mask := 0 }, { valid := true, mask := 0 }] 1 7) = some (a1, ents1) ∧
      ents1[1]? = some { valid := true, mask := 1 } ∧
      (({ index := 1, m_list_data := [] } : ComponentList Nat).Create
        { max_component_types := 8 } ents1 1 9) = some (b1, ents2) ∧
      ents2[1]? = some { valid := true, mask := 3 } ∧
      a1.Remove { max_component_types := 8 } ents2 1 = some (a2, ents3) ∧
      ents3[1]? = some { valid := true, mask := 2 } :=
  ⟨rfl, (Create_Remove_mask_frame { max_component_types := 8 }
    ({ index := 0, m_list_data := [] } : ComponentList Nat)
    [{ valid := false, mask := 0 }, { valid := true, mask := 0 }] 1 7
    { valid := true, mask := 0 } rfl (by decide)).2.2 rfl Nat _
    { index := 1, m_list_data := [] } 9 rfl rfl⟩

/-- C5: `Create(id, v)` and `Remove(id)` leave the stored value of every other id as
it was: every index `j` other than `id` that is inside the store before and after
the call holds the same value. In a store holding 10, 20, 30 for entities 1, 2, 3,
removing the components of entities 1 and 3 leaves the component of entity 2 at 20. -/
theorem Create_Remove_value_frame (K : SceneKey) (self : ComponentList α)
    (ents : List Entity) (id : Nat) (v : α) (hid : id < ents.length) :
    (∃ st ents', self.Create K ents id v = some (st, ents') ∧
      ∀ j, j ≠ id → j < self.GetSparseList.length → j < st.GetSparseList.length →
        st.GetSparseList[j]? = self.GetSparseList[j]?) ∧
    (id < self.m_list_data.length →
      ∃ st ents', self.Remove K ents id = some (st, ents') ∧
        ∀ j, j ≠ id → j < self.GetSparseList.length → j < st.GetSparseList.length →
          st.GetSparseList[j]? = self.GetSparseList[j]?) ∧
    ((((({ index := 0, m_list_data := [0, 10, 20, 30] } : ComponentList Nat).Remove
        { max_component_types := 8 }
        [{ valid := false, mask := 0 }, { valid := true, mask := 1 },
          { valid := true, mask := 1 }, { valid := true, mask := 1 }] 1).bind
        (fun p => p.1.Remove { max_component_types := 8 } p.2 3)).map
        (fun p => p.1.GetSparseList)) = some [0, 0, 20, 0]) := by
  have he : ents[id]? = some ents[id] := List.getElem?_eq_getElem hid
  refine ⟨⟨_, _, Create_eq K self ents id v _ he, ?_⟩, fun hcap =>
    ⟨_, _, Remove_eq K self ents id _ he hcap, ?_⟩, by decide⟩
  · intro j hj hb _
    exact getElem?_grown_set_ne self id j v hj hb
  · intro j hj _ ha
    show (self.trimmed ents id)[j]? = self.m_list_data[j]?
    rw [getElem?_trimmed self ents id j ha]
    exact List.getElem?_set_ne (Ne.symm hj)

/-- C5, at a concrete input: the store holds 10, 20, 30 for entities 1, 2, 3 of four
records; `Create` for entity 1 and `Remove` of entity 1 are applied. -/
theorem Create_Remove_value_frame_witness :
    (∃ st ents',
      (({ index := 0, m_list_data := [0, 10, 20, 30] } : ComponentList Nat).Create
        { max_component_types := 8 }
        [{ valid := false, mask := 0 }, { valid := true, mask := 1 },
          { valid := true, mask := 1 }, { valid := true, mask := 1 }] 1 11) = some (st, ents') ∧
      ∀ j, j ≠ 1 → j < 4 → j < st.GetSparseList.length →
        st.GetSparseList[j]? = [0, 10, 20, 30][j]?) ∧
    (1 < 4 → ∃ st ents',
      (({ index := 0, m_list_data := [0, 10, 20, 30] } : ComponentList Nat).Remove
        { max_component_types := 8 }
        [{ valid := false, mask := 0 }, { valid := true, mask := 1 },
          { valid := true, mask := 1 }, { valid := true, mask := 1 }] 1) = some (st, ents') ∧
      ∀ j, j ≠ 1 → j < 4 → j < st.GetSparseList.length →
        st.GetSparseList[j]? = [0, 10, 20, 30][j]?) :=
  ⟨(Create_Remove_value_frame { max_component_types := 8 }
      ({ index := 0, m_list_data := [0, 10, 20, 30] } : ComponentList Nat)
      [{ valid := false, mask := 0 }, { valid := true, mask := 1 },
        { valid := true, mask := 1 }, { valid := true, mask := 1 }] 1 11 (by decide)).1,
    (Create_Remove_value_frame { max_component_types := 8 }
      ({ index := 0, m_list_data := [0, 10, 20, 30] } : ComponentList Nat)
      [{ valid := false, mask := 0 }, { valid := true, mask := 1 },
        { valid := true, mask := 1 }, { valid := true, mask := 1 }] 1 11 (by decide)).2.1⟩

end ComponentList

end ks.ecs

namespace ks.ecs.detail

/-! ## Component type registry: first-touch order and the limit -/

variable {τ : Type} [DecidableEq τ]

omit [DecidableEq τ] in
theorem Registry.dense_fresh : Registry.Dense ({} : Registry τ) [] :=
  ⟨rfl, rfl⟩

theorem lookup_zip_of_not_mem (T : τ) (pre : List τ) (l : List Nat) (hT : T ∉ pre) :
    (pre.zip l).lookup T = none := by
  induction pre generalizing l with
  | nil => rfl
  | cons a as ih =>
    cases l with
    | nil => rfl
    | cons b bs =>
      have hne : T ≠ a := fun h => hT (h ▸ List.mem_cons_self _ _)
      have hT' : T ∉ as := fun h => hT (List.mem_cons_of_mem _ h)
      have hb : (T == a) = false := by simpa using hne
      simp only [List.zip_cons_cons, List.lookup_cons, hb]
      exact ih bs hT'

theorem lookup_zip_range' (pre : List τ) (hd : pre.Nodup) (s i : Nat) (hi : i < pre.length) :
    (pre.zip (List.range' s pre.length)).lookup pre[i] = some (s + i) := by
  induction pre generalizing s i with
  | nil => cases hi
  | cons a as ih =>
    rw [List.nodup_cons] at hd
    simp only [List.length_cons, List.range'_succ, List.zip_cons_cons]
    cases i with
    | zero => simp [List.lookup_cons]
    | succ j =>
      have hj : j < as.length := by
        simp only [List.length_cons] at hi; omega
      have hne : as[j] ≠ a := fun h => hd.1 (h ▸ List.getElem_mem hj)
      simp only [List.getElem_cons_succ, List.lookup_cons]
      have hb : (as[j] == a) = false := by simpa using hne
      rw [hb]
      show List.lookup as[j] (as.zip (List.range' (s + 1) as.length)) = some (s + (j + 1))
      rw [ih hd.2 (s + 1) j hj, Nat.add_assoc, Nat.add_comm 1 j]

theorem Registry.Dense.lookup {r : Registry τ} {pre : List τ} (h : r.Dense pre)
    (hd : pre.Nodup) (i : Nat) (hi : i < pre.length) :
    r.index.lookup pre[i] = some i := by
  rw [h.2, List.range_eq_range', lookup_zip_range' pre hd 0 i hi, Nat.zero_add]

theorem Registry.Dense.lookup_none {r : Registry τ} {pre : List τ} (h : r.Dense pre)
    (T : τ) (hT : T ∉ pre) : r.index.lookup T = none := by
  rw [h.2]
  exact lookup_zip_of_not_mem T pre _ hT

/-- Reading the index of a new type below the limit. -/
theorem Component.index_new (K : SceneKey) (hK : K.max_component_types < 2 ^ 32)
    {r : Registry τ} {pre : List τ} (h : r.Dense pre) (T : τ) (hT : T ∉ pre)
    (hlt : pre.length < K.max_component_types) :
    ∃ r', Component.index K r T = (.ok pre.length, r') ∧ r'.Dense (pre ++ [T]) := by
  have hne : ¬ r.counter.count = K.max_component_types := by rw [h.1]; omega
  have hne' : ¬ pre.length = K.max_component_types := by omega
  refine ⟨{ counter := { count := (r.counter.count + 1) % 2 ^ 32 },
            index := r.index ++ [(T, r.counter.count)] }, ?_, ?_, ?_⟩
  · unfold Component.index
    rw [h.lookup_none T hT]
    simp only [ComponentCount.next, ComponentCount.increment, h.1, hne', if_false]
  · show (r.counter.count + 1) % 2 ^ 32 = (pre ++ [T]).length
    rw [h.1, List.length_append, List.length_singleton]
    exact Nat.mod_eq_of_lt (by omega)
  · show r.index ++ [(T, r.counter.count)] = _
    rw [h.2, h.1, List.length_append, List.length_singleton, List.range_succ,
      List.zip_append (by simp)]
    rfl

/-- Reading the index of a new type at the limit. -/
theorem Component.index_limit (K : SceneKey) {r : Registry τ} {pre : List τ}
    (h : r.Dense pre) (T : τ) (hT : T ∉ pre)
    (heq : pre.length = K.max_component_types) :
    (Component.index K r T).1 = .error .ComponentLimitReached := by
  have hc : r.counter.count = K.max_component_types := by rw [h.1]; exact heq
  unfold Component.index
  rw [h.lookup_none T hT]
  simp only [ComponentCount.next, ComponentCount.increment, hc, if_true]

/-- Reading the indices of new, pairwise distinct types while the limit is not reached. -/
theorem Component.indexAll_new (K : SceneKey) (hK : K.max_component_types < 2 ^ 32)
    (ts : List τ) (r : Registry τ) (pre : List τ) (h : r.Dense pre)
    (hd : (pre ++ ts).Nodup) (hn : pre.length + ts.length ≤ K.max_component_types) :
    ∃ r', Component.indexAll K r ts =
        ((List.range' pre.length ts.length).map Except.ok, r') ∧ r'.Dense (pre ++ ts) := by
  induction ts generalizing r pre with
  | nil => exact ⟨r, rfl, by simpa using h⟩
  | cons T ts ih =>
    have hT : T ∉ pre := by
      intro hmem
      have := (List.nodup_append.1 hd).2.2
      exact this hmem (List.mem_cons_self _ _)
    have hlen : pre.length < K.max_component_types := by
      simp only [List.length_cons] at hn; omega
    obtain ⟨r1, h1, hd1⟩ := Component.index_new K hK h T hT hlen
    have hd' : ((pre ++ [T]) ++ ts).Nodup := by simpa using hd
    have hn' : (pre ++ [T]).length + ts.length ≤ K.max_component_types := by
      simp only [List.length_append, List.length_singleton, List.length_cons,
        List.length_nil] at hn ⊢
      omega
    obtain ⟨r2, h2, hd2⟩ := ih r1 (pre ++ [T]) hd1 hd' hn'
    refine ⟨r2, ?_, by simpa using hd2⟩
    simp only [Component.indexAll, h1, h2, List.length_cons, List.range'_succ, List.map_cons,
      List.length_append, List.length_singleton, List.length_nil, Nat.zero_add]

theorem Component.indexAll_fresh (K : SceneKey) (hK : K.max_component_types < 2 ^ 32)
    (ts : List τ) (hd : ts.Nodup) (hn : ts.length ≤ K.max_component_types) :
    ∃ r', Component.indexAll K {} ts = ((List.range ts.length).map Except.ok, r') ∧
      r'.Dense ts := by
  obtain ⟨r', h1, h2⟩ := Component.indexAll_new K hK ts {} [] Registry.dense_fresh
    (by simpa using hd) (by simpa using hn)
  refine ⟨r', ?_, by simpa using h2⟩
  rw [h1, List.range_eq_range']
  rfl

/-- C8: after `ts.length ≤ max_component_types` distinct types were registered from a
fresh registry (all with success), registering a new type succeeds, with the next
index, when fewer than `max_component_types` types are registered, and fails with
`ComponentLimitReached` when exactly `max_component_types` are. With
`max_component_types = 8` the first 8 registrations succeed and the 9th fails. -/
theorem Component.index_limit_reached (K : SceneKey)
    (hK : K.max_component_types < 2 ^ 32) (ts : List τ) (hd : ts.Nodup)
    (hn : ts.length ≤ K.max_component_types) (T : τ) (hT : T ∉ ts) :
    (Component.indexAll K {} ts).1 = (List.range ts.length).map Except.ok ∧
    (ts.length < K.max_component_types →
      (Component.index K (Component.indexAll K {} ts).2 T).1 = .ok ts.length) ∧
    (ts.length = K.max_component_types →
      (Component.index K (Component.indexAll K {} ts).2 T).1 =
        .error .ComponentLimitReached) ∧
    (Component.indexAll { max_component_types := 8 } ({} : Registry Nat) (List.range 9)).1 =
      [.ok 0, .ok 1, .ok 2, .ok 3, .ok 4, .ok 5, .ok 6, .ok 7,
        .error .ComponentLimitReached] := by
  obtain ⟨r', h1, h2⟩ := Component.indexAll_fresh K hK ts hd hn
  rw [h1]
  refine ⟨rfl, ?_, ?_, rfl⟩
  · intro hlt
    obtain ⟨r2, h3, _⟩ := Component.index_new K hK h2 T hT hlt
    show (Component.index K r' T).1 = _
    rw [h3]
  · intro heq
    exact Component.index_limit K h2 T hT heq

/-- C8, at a concrete input: eight types registered under a key with 8 component
types, then a ninth. -/
theorem Component.index_limit_reached_witness :
    (Component.indexAll { max_component_types := 8 } {} (List.range 8)).1 =
        (List.range (List.range 8).length).map Except.ok ∧
    ((List.range 8).length < 8 →
      (Component.index { max_component_types := 8 }
        (Component.indexAll { max_component_types := 8 } {} (List.range 8)).2 8).1 =
          .ok (List.range 8).length) ∧
    ((List.range 8).length = 8 →
      (Component.index { max_component_types := 8 }
        (Component.indexAll { max_component_types := 8 } {} (List.range 8)).2 8).1 =
          .error .ComponentLimitReached) ∧
    (Component.indexAll { max_component_types := 8 } ({} : Registry Nat) (List.range 9)).1 =
      [.ok 0, .ok 1, .ok 2, .ok 3, .ok 4, .ok 5, .ok 6, .ok 7,
        .error .ComponentLimitReached] :=
  Component.index_limit_reached { max_component_types := 8 } (by decide) (List.range 8)
    (by decide) (by decide) 8 (by decide)

theorem GetComponentMaskBitSet_foldl (K : SceneKey) (args : List Nat)
    (h : ∀ i ∈ args, i < K.max_component_types) (acc : Nat) :
    args.foldlM (fun mask index => SetComponentType K index mask) acc =
      some (args.foldl (fun m i => m ||| 1 <<< i) acc) := by
  induction args generalizing acc with
  | nil => rfl
  | cons a as ih =>
    have ha : a < K.max_component_types := h a (List.mem_cons_self _ _)
    have has : ∀ i ∈ as, i < K.max_component_types :=
      fun i hi => h i (List.mem_cons_of_mem _ hi)
    simp only [List.foldlM_cons, List.foldl_cons, SetComponentType, bitsetSet, ha, if_true]
    exact ih has _

theorem testBit_foldl_or (args : List Nat) (acc j : Nat) :
    (args.foldl (fun m i => m ||| 1 <<< i) acc).testBit j =
      (acc.testBit j || decide (j ∈ args)) := by
  induction args generalizing acc with
  | nil => simp
  | cons a as ih =>
    rw [List.foldl_cons, ih, Nat.testBit_or, Nat.one_shiftLeft, Nat.testBit_two_pow]
    by_cases h1 : a = j
    · simp [h1]
    · have h2 : ¬ j = a := fun h => h1 h.symm
      simp [h1, h2]

theorem foldl_or_lt (args : List Nat) (n : Nat) (h : ∀ i ∈ args, i < n) :
    args.foldl (fun m i => m ||| 1 <<< i) 0 < 2 ^ n := by
  apply Nat.lt_pow_two_of_testBit
  intro j hj
  rw [testBit_foldl_or]
  have : j ∉ args := fun hmem => absurd (h j hmem) (by omega)
  simp [this]

/-- The value of `GetComponentMask` for indices below `max_component_types ≤ 64`. -/
theorem GetComponentMask_eq (K : SceneKey) (hK : K.max_component_types ≤ 64)
    (args : List Nat) (h : ∀ i ∈ args, i < K.max_component_types) :
    GetComponentMask K args = some (args.foldl (fun m i => m ||| 1 <<< i) 0) := by
  have hlt := foldl_or_lt args K.max_component_types h
  have h64 : args.foldl (fun m i => m ||| 1 <<< i) 0 < 2 ^ 64 :=
    lt_of_lt_of_le hlt (Nat.pow_le_pow_right (by decide) hK)
  have hw : args.foldl (fun m i => m ||| 1 <<< i) 0 < 2 ^ MaskBits K :=
    lt_of_lt_of_le hlt (Nat.pow_le_pow_right (by decide) (le_MaskBits K hK))
  unfold GetComponentMask GetComponentMaskBitSet
  rw [GetComponentMaskBitSet_foldl K args h 0]
  simp only [bitsetToUlong, h64, if_true, toMask, Nat.mod_eq_of_lt hw]

/-- Bit `j` of `GetComponentMask<T1,...,Tn>()` is set exactly when `j` is the index of
a listed type. -/
theorem GetComponentMask_testBit (K : SceneKey) (hK : K.max_component_types ≤ 64)
    (args : List Nat) (h : ∀ i ∈ args, i < K.max_component_types) :
    ∃ m, GetComponentMask K args = some m ∧ ∀ j, m.testBit j = decide (j ∈ args) := by
  refine ⟨_, GetComponentMask_eq K hK args h, fun j => ?_⟩
  rw [testBit_foldl_or]
  simp

/-- C10: for a list of component types whose indices are below
`max_component_types ≤ 64`, `GetComponentMask<T1,...,Tn>()` returns the bitwise OR of
`1 << Component<Ti>::index` over the list, which is 0 for the empty list; for two
types of indices `i` and `i+2` it is `(1 << i) + (1 << (i+2))`. -/
theorem GetComponentMask_eq_or (K : SceneKey) (hK : K.max_component_types ≤ 64)
    (args : List Nat) (h : ∀ i ∈ args, i < K.max_component_types) :
    GetComponentMask K args = some (args.foldl (fun m i => m ||| 1 <<< i) 0) ∧
    GetComponentMask K [] = some 0 ∧
    (∀ i, i + 2 < K.max_component_types →
      GetComponentMask K [i, i + 2] = some ((1 <<< i) + (1 <<< (i + 2)))) := by
  refine ⟨GetComponentMask_eq K hK args h, ?_, ?_⟩
  · exact GetComponentMask_eq K hK [] (fun i hi => absurd hi (List.not_mem_nil i))
  · intro i hi
    have hb : ∀ j ∈ [i, i + 2], j < K.max_component_types := by
      intro j hj
      simp only [List.mem_cons, List.mem_singleton, List.not_mem_nil, or_false] at hj
      rcases hj with rfl | rfl <;> omega
    rw [GetComponentMask_eq K hK [i, i + 2] hb]
    simp only [List.foldl_cons, List.foldl_nil, Nat.zero_or, Nat.one_shiftLeft]
    have hlt : 2 ^ i < 2 ^ (i + 2) := Nat.pow_lt_pow_right (by decide) (by omega)
    have := Nat.mul_add_lt_is_or hlt 1
    rw [Nat.mul_one] at this
    rw [Nat.or_comm, ← this, Nat.add_comm]

/-- C10, at a concrete input: types of indices 0 and 2 under a key with 8 component
types; the mask is 5. -/
theorem GetComponentMask_eq_or_witness :
    GetComponentMask { max_component_types := 8 } [0, 2] = some 5 ∧
    GetComponentMask { max_component_types := 8 } [] = some 0 ∧
    (∀ i, i + 2 < 8 →
      GetComponentMask { max_component_types := 8 } [i, i + 2] =
        some ((1 <<< i) + (1 <<< (i + 2)))) :=
  GetComponentMask_eq_or { max_component_types := 8 } (by decide) [0, 2] (by decide)

end ks.ecs.detail

namespace ks.ecs

/-! ## Masks after a run of `Create` calls -/

theorem CreateCall.run_eq (K : SceneKey) (c : CreateCall) (ents : List Entity) (id : Nat)
    (e : Entity) (he : ents[id]? = some e) :
    c.run K ents id =
      some (@ComponentListBase.mk c.ComponentType c.inst
          { c.list with m_list_data := (@ComponentList.grown _ c.inst c.list id).set id c.value },
        ents.set id
          { e with mask := detail.toMask K (e.mask ||| detail.maskBit K c.list.index) }) := by
  unfold CreateCall.run
  rw [@ComponentList.Create_eq _ c.inst K c.list ents id c.value e he]

theorem ComponentListBase.Remove_base_eq (K : SceneKey) (cm : ComponentListBase)
    (ents : List Entity) (id : Nat) (e : Entity) (he : ents[id]? = some e)
    (hid : id < cm.list.m_list_data.length) :
    cm.Remove K ents id =
      some ({ cm with list :=
            { cm.list with m_list_data := @ComponentList.trimmed _ cm.inst cm.list ents id } },
        ents.set id
          { e with mask :=
            detail.toMask K (e.mask &&& detail.maskBitCompl K cm.list.index) }) := by
  unfold ComponentListBase.Remove
  rw [@ComponentList.Remove_eq _ cm.inst K cm.list ents id e he hid]

theorem getElem?_lt_length {β : Type _} {l : List β} {i : Nat} {b : β} (h : l[i]? = some b) :
    i < l.length := by
  rcases Nat.lt_or_ge i l.length with h' | h'
  · exact h'
  · rw [List.getElem?_eq_none h'] at h; cases h

/-- The entity records and the stores after a run of `Create` calls for one entity. -/
theorem createAll_spec (K : SceneKey) (id : Nat) (calls : List CreateCall)
    (hidx : ∀ c ∈ calls, c.list.index < detail.MaskBits K)
    (ents : List Entity) (e : Entity) (he : ents[id]? = some e)
    (hm : e.mask < 2 ^ detail.MaskBits K) :
    ∃ sts ents' e', createAll K id calls ents = some (sts, ents') ∧
      ents'[id]? = some e' ∧ ents'.length = ents.length ∧ e'.valid = e.valid ∧
      e'.mask < 2 ^ detail.MaskBits K ∧
      (∀ j, e'.mask.testBit j =
        (e.mask.testBit j || decide (j ∈ calls.map (fun c => c.list.index)))) ∧
      (∀ st ∈ sts, st.list.index ∈ calls.map (fun c => c.list.index) ∧
        id < st.list.m_list_data.length) := by
  induction calls generalizing ents e with
  | nil =>
    exact ⟨[], ents, e, rfl, he, rfl, rfl, hm, by simp, by simp⟩
  | cons c cs ih =>
    have hid := getElem?_lt_length he
    have hc : c.list.index < detail.MaskBits K := hidx c (List.mem_cons_self _ _)
    have hcs : ∀ c ∈ cs, c.list.index < detail.MaskBits K :=
      fun d hd => hidx d (List.mem_cons_of_mem _ hd)
    have he1 : (ents.set id
        { e with mask := detail.toMask K (e.mask ||| detail.maskBit K c.list.index) })[id]? =
        some { e with mask := detail.toMask K (e.mask ||| detail.maskBit K c.list.index) } :=
      List.getElem?_set_self hid
    obtain ⟨sts, ents', e', h1, h2, h3, h4, h5, h6, h7⟩ :=
      ih hcs _ _ he1 (detail.toMask_lt K _)
    refine ⟨(@ComponentListBase.mk c.ComponentType c.inst
        { c.list with m_list_data := (@ComponentList.grown _ c.inst c.list id).set id c.value })
      :: sts, ents', e', ?_, h2, ?_, h4, h5, ?_, ?_⟩
    · simp only [createAll, CreateCall.run_eq K c ents id e he, h1]
    · rw [h3, List.length_set]
    · intro j
      rw [h6 j]
      simp only [detail.testBit_or_maskBit, List.map_cons, List.mem_cons]
      by_cases hj : j < detail.MaskBits K
      · by_cases hjc : c.list.index = j
        · simp [hj, hjc]
        · have hjc' : ¬ j = c.list.index := fun h => hjc h.symm
          simp [hj, hjc, hjc']
      · have hjc : ¬ j = c.list.index := by omega
        have hjc' : ¬ c.list.index = j := by omega
        simp [hj, hjc, hjc', detail.testBit_of_lt_MaskBits hm hj]
    · intro st hst
      rcases List.mem_cons.1 hst with rfl | hst
      · refine ⟨by simp, ?_⟩
        show id < ((@ComponentList.grown _ c.inst c.list id).set id c.value).length
        rw [List.length_set]
        exact @ComponentList.lt_length_grown _ c.inst c.list id
      · exact ⟨List.mem_cons_of_mem _ (h7 st hst).1, (h7 st hst).2⟩

theorem detail.GetComponentMask_of_testBit (K : SceneKey)
    (hK : K.max_component_types ≤ 64) (args : List Nat)
    (h : ∀ i ∈ args, i < K.max_component_types) (m : Nat)
    (hm : ∀ j, m.testBit j = decide (j ∈ args)) :
    detail.GetComponentMask K args = some m := by
  obtain ⟨m', h1, h2⟩ := detail.GetComponentMask_testBit K hK args h
  rw [h1]
  congr 1
  apply Nat.eq_of_testBit_eq
  intro j
  rw [h2, hm]

/-- C3: for an entity with mask 0 (as `CreateEntity` leaves it) and component types
whose indices are below `max_component_types ≤ 64`: after one `Create(id, ...)` on
the store of each type, in any order, the entity's mask is `GetComponentMask` of any
list of exactly these types; and after `Remove(id)` on one of these stores the mask
is `GetComponentMask` of any list of exactly the other types. -/
theorem createAll_mask_eq_GetComponentMask (K : SceneKey)
    (hK : K.max_component_types ≤ 64) (calls : List CreateCall)
    (hidx : ∀ c ∈ calls, c.list.index < K.max_component_types)
    (ents : List Entity) (id : Nat) (e : Entity) (he : ents[id]? = some e)
    (h0 : e.mask = 0) :
    ∃ sts ents' e', createAll K id calls ents = some (sts, ents') ∧
      ents'[id]? = some e' ∧
      (∀ args : List Nat, (∀ i, i ∈ args ↔ i ∈ calls.map (fun c => c.list.index)) →
        detail.GetComponentMask K args = some e'.mask) ∧
      (∀ st ∈ sts, ∃ st' ents'' e'', st.Remove K ents' id = some (st', ents'') ∧
        ents''[id]? = some e'' ∧
        ∀ args : List Nat,
          (∀ i, i ∈ args ↔ i ∈ calls.map (fun c => c.list.index) ∧ i ≠ st.list.index) →
          detail.GetComponentMask K args = some e''.mask) := by
  have hw := detail.le_MaskBits K hK
  have hm : e.mask < 2 ^ detail.MaskBits K := by rw [h0]; positivity
  obtain ⟨sts, ents', e', h1, h2, h3, _, h5, h6, h7⟩ :=
    createAll_spec K id calls (fun c hc => lt_of_lt_of_le (hidx c hc) hw) ents e he hm
  have hbits : ∀ j, e'.mask.testBit j = decide (j ∈ calls.map (fun c => c.list.index)) := by
    intro j
    rw [h6 j, h0]
    simp
  have hmem : ∀ i, i ∈ calls.map (fun c => c.list.index) → i < K.max_component_types := by
    intro i hi
    obtain ⟨c, hc, rfl⟩ := List.mem_map.1 hi
    exact hidx c hc
  refine ⟨sts, ents', e', h1, h2, ?_, ?_⟩
  · intro args hargs
    apply detail.GetComponentMask_of_testBit K hK args (fun i hi => hmem i ((hargs i).1 hi))
    intro j
    rw [hbits j]
    exact decide_eq_decide.2 (hargs j).symm
  · intro st hst
    have hid : id < ents'.length := getElem?_lt_length h2
    refine ⟨_, _, _, ComponentListBase.Remove_base_eq K st ents' id e' h2 (h7 st hst).2,
      List.getElem?_set_self hid, ?_⟩
    intro args hargs
    apply detail.GetComponentMask_of_testBit K hK args
      (fun i hi => hmem i ((hargs i).1 hi).1)
    intro j
    show (detail.toMask K (e'.mask &&& detail.maskBitCompl K st.list.index)).testBit j = _
    rw [detail.testBit_and_maskBitCompl, hbits j]
    by_cases hj : j ∈ calls.map (fun c => c.list.index)
    · have hjw : j < detail.MaskBits K := lt_of_lt_of_le (hmem j hj) hw
      by_cases hjs : st.list.index = j
      · have : j ∉ args := fun h => ((hargs j).1 h).2 hjs.symm
        simp [hjw, hj, hjs, this]
      · have : j ∈ args := (hargs j).2 ⟨hj, fun h => hjs h.symm⟩
        simp [hjw, hj, hjs, this]
    · have : j ∉ args := fun h => hj ((hargs j).1 h).1
      simp [hj, this]

/-- C3, at a concrete input: the two sample calls for entity 1 of two records under a
key with 8 component types. -/
theorem createAll_mask_eq_GetComponentMask_witness :
    ∃ sts ents' e', createAll { max_component_types := 8 } 1 sampleCalls
        [{ valid := false, mask := 0 }, { valid := true, mask := 0 }] = some (sts, ents') ∧
      ents'[1]? = some e' ∧
      (∀ args : List Nat, (∀ i, i ∈ args ↔ i ∈ sampleCalls.map (fun c => c.list.index)) →
        detail.GetComponentMask { max_component_types := 8 } args = some e'.mask) ∧
      (∀ st ∈ sts, ∃ st' ents'' e'',
        st.Remove { max_component_types := 8 } ents' 1 = some (st', ents'') ∧
        ents''[1]? = some e'' ∧
        ∀ args : List Nat,
          (∀ i, i ∈ args ↔ i ∈ sampleCalls.map (fun c => c.list.index) ∧ i ≠ st.list.index) →
          detail.GetComponentMask { max_component_types := 8 } args = some e''.mask) :=
  createAll_mask_eq_GetComponentMask { max_component_types := 8 } (by decide) sampleCalls
    (by unfold sampleCalls; decide)
    [{ valid := false, mask := 0 }, { valid := true, mask := 0 }] 1
    { valid := true, mask := 0 } rfl rfl

end ks.ecs

namespace ks.ecs.Scene

/-! ## `RemoveEntity`: the components of the entity are removed first -/

variable {R : Type}

theorem and_one_shiftLeft_ne_zero (n i : Nat) :
    (n &&& 1 <<< i ≠ 0) ↔ n.testBit i = true := by
  rw [Nat.one_shiftLeft, Nat.and_two_pow]
  have h2 : 2 ^ i ≠ 0 := by positivity
  cases n.testBit i <;> simp [h2]

end ks.ecs.Scene

namespace ks.ecs.detail

/-! ## Mask codec: the mask depends on the set of listed types only -/

theorem GetComponentMaskBitSet_none (K : SceneKey) (args : List Nat)
    (h : ∃ i ∈ args, ¬ i < K.max_component_types) (acc : Nat) :
    args.foldlM (fun mask index => SetComponentType K index mask) acc = none := by
  induction args generalizing acc with
  | nil => obtain ⟨i, hi, _⟩ := h; cases hi
  | cons a as ih =>
    by_cases ha : a < K.max_component_types
    · have hex : ∃ i ∈ as, ¬ i < K.max_component_types := by
        obtain ⟨i, hi, hlt⟩ := h
        rcases List.mem_cons.1 hi with rfl | hi
        · exact absurd ha hlt
        · exact ⟨i, hi, hlt⟩
      simp only [List.foldlM_cons, SetComponentType, bitsetSet, ha, if_true]
      exact ih hex _
    · simp only [List.foldlM_cons, SetComponentType, bitsetSet, ha, if_false]
      rfl

theorem GetComponentMaskBitSet_congr (K : SceneKey) (a b : List Nat)
    (h : ∀ i, i ∈ a ↔ i ∈ b) :
    GetComponentMaskBitSet K a = GetComponentMaskBitSet K b := by
  unfold GetComponentMaskBitSet
  by_cases ha : ∀ i ∈ a, i < K.max_component_types
  · have hb : ∀ i ∈ b, i < K.max_component_types := fun i hi => ha i ((h i).2 hi)
    rw [GetComponentMaskBitSet_foldl K a ha 0, GetComponentMaskBitSet_foldl K b hb 0]
    congr 1
    apply Nat.eq_of_testBit_eq
    intro j
    rw [testBit_foldl_or, testBit_foldl_or]
    congr 1
    exact decide_eq_decide.2 (h j)
  · have ha' : ∃ i ∈ a, ¬ i < K.max_component_types := by
      by_contra hne
      exact ha (fun i hi => by_contra (fun hlt => hne ⟨i, hi, hlt⟩))
    have hb' : ∃ i ∈ b, ¬ i < K.max_component_types := by
      obtain ⟨i, hi, hlt⟩ := ha'
      exact ⟨i, (h i).1 hi, hlt⟩
    rw [GetComponentMaskBitSet_none K a ha' 0, GetComponentMaskBitSet_none K b hb' 0]

/-- C11: two lists of component types with the same members (in any order, with any
repetitions) give the same outcome of `GetComponentMask`; when the indices are below
`max_component_types ≤ 64` both calls return the same mask. In particular
`GetComponentMask<A,B>() == GetComponentMask<B,A>()` and
`GetComponentMask<A,A>() == GetComponentMask<A>()`. -/
theorem GetComponentMask_same_set (K : SceneKey) (a b : List Nat)
    (h : ∀ i, i ∈ a ↔ i ∈ b) :
    GetComponentMask K a = GetComponentMask K b ∧
    (K.max_component_types ≤ 64 → (∀ i ∈ a, i < K.max_component_types) →
      ∃ m, GetComponentMask K a = some m ∧ GetComponentMask K b = some m) ∧
    (∀ x y, GetComponentMask K [x, y] = GetComponentMask K [y, x]) ∧
    (∀ x, GetComponentMask K [x, x] = GetComponentMask K [x]) := by
  have key : ∀ c d : List Nat, (∀ i, i ∈ c ↔ i ∈ d) →
      GetComponentMask K c = GetComponentMask K d := by
    intro c d hcd
    unfold GetComponentMask
    rw [GetComponentMaskBitSet_congr K c d hcd]
  refine ⟨key a b h, ?_, ?_, ?_⟩
  · intro hK ha
    refine ⟨_, GetComponentMask_eq K hK a ha, ?_⟩
    rw [← key a b h]
    exact GetComponentMask_eq K hK a ha
  · intro x y
    apply key
    intro i
    simp only [List.mem_cons, List.mem_singleton, List.not_mem_nil, or_false]
    exact Or.comm
  · intro x
    apply key
    intro i
    simp only [List.mem_cons, List.mem_singleton, List.not_mem_nil, or_false, or_self]

/-- C11, at a concrete input: the lists `[0, 1]` and `[1, 0, 1]` under a key with 8
component types. -/
theorem GetComponentMask_same_set_witness :
    GetComponentMask { max_component_types := 8 } [0, 1] =
      GetComponentMask { max_component_types := 8 } [1, 0, 1] ∧
    ((8 : Nat) ≤ 64 → (∀ i ∈ [0, 1], i < 8) →
      ∃ m, GetComponentMask { max_component_types := 8 } [0, 1] = some m ∧
        GetComponentMask { max_component_types := 8 } [1, 0, 1] = some m) ∧
    (∀ x y, GetComponentMask { max_component_types := 8 } [x, y] =
      GetComponentMask { max_component_types := 8 } [y, x]) ∧
    (∀ x, GetComponentMask { max_component_types := 8 } [x, x] =
      GetComponentMask { max_component_types := 8 } [x]) :=
  GetComponentMask_same_set { max_component_types := 8 } [0, 1] [1, 0, 1]
    (by
      intro i
      simp only [List.mem_cons, List.mem_singleton, List.not_mem_nil, or_false]
      constructor
      · rintro (h | h)
        · exact Or.inr (Or.inl h)
        · exact Or.inl h
      · rintro (h | h | h)
        · exact Or.inr h
        · exact Or.inl h
        · exact Or.inr h)

/-- C12 fails on the code: for 17 to 32 component types `GetMaskTypeIndex` returns 3,
the 64-bit element of the tuple, where the smallest sufficient width is 32 bits; the
test `bits <= 2` of the third branch is never true once `bits <= 16` has failed. At the
other boundaries the width is the smallest sufficient one. -/
theorem GetMaskTypeIndex_17_to_32 :
    GetMaskTypeIndex 17 = 3 ∧ MaskBits { max_component_types := 17 } = 64 ∧
    GetMaskTypeIndex 32 = 3 ∧ MaskBits { max_component_types := 32 } = 64 ∧
    MaskBits { max_component_types := 1 } = 8 ∧
    MaskBits { max_component_types := 8 } = 8 ∧
    MaskBits { max_component_types := 9 } = 16 ∧
    MaskBits { max_component_types := 16 } = 16 ∧
    MaskBits { max_component_types := 33 } = 64 ∧
    MaskBits { max_component_types := 64 } = 64 := by
  decide

end ks.ecs.detail

namespace ks.ecs.Scene

/-! ## `GetEntityIdList` -/

variable {R : Type}

theorem foldl_push_eq_filter (ents : List Entity) (l : List Nat) (acc : List Nat) :
    l.foldl
      (fun m_list_ent_ids i =>
        match ents[i]? with
        | some entity => if entity.valid then m_list_ent_ids ++ [i] else m_list_ent_ids
        | none => m_list_ent_ids)
      acc =
    acc ++ l.filter (fun i => (ents[i]?.map Entity.valid).getD false) := by
  induction l generalizing acc with
  | nil => simp
  | cons a as ih =>
    rw [List.foldl_cons, ih, List.filter_cons]
    cases h : ents[a]? with
    | none => simp
    | some e =>
      cases hv : e.valid <;> simp [hv]

theorem GetEntityIdList_eq_filter (s : Scene R) :
    s.GetEntityIdList =
      (List.range s.entities.length).filter
        (fun i => (s.entities[i]?.map Entity.valid).getD false) := by
  unfold GetEntityIdList
  rw [foldl_push_eq_filter, List.nil_append]

theorem mem_GetEntityIdList (s : Scene R) (i : Nat) :
    i ∈ s.GetEntityIdList ↔ ∃ e, s.entities[i]? = some e ∧ e.valid = true := by
  rw [GetEntityIdList_eq_filter, List.mem_filter, List.mem_range]
  constructor
  · rintro ⟨hi, hv⟩
    rw [List.getElem?_eq_getElem hi] at hv
    exact ⟨s.entities[i], List.getElem?_eq_getElem hi, by simpa using hv⟩
  · rintro ⟨e, he, hv⟩
    refine ⟨getElem?_lt_length he, ?_⟩
    rw [he]
    simpa using hv

theorem length_filter_range_valid (ents : List Entity) :
    ((List.range ents.length).filter
      (fun i => (ents[i]?.map Entity.valid).getD false)).length =
      ents.countP (fun e => e.valid) := by
  induction ents using List.reverseRecOn with
  | nil => rfl
  | append_singleton l a ih =>
    rw [List.length_append, List.length_singleton, List.range_succ, List.filter_append,
      List.length_append, List.countP_append, List.countP_singleton]
    have h1 : (List.range l.length).filter
        (fun i => ((l ++ [a])[i]?.map Entity.valid).getD false) =
        (List.range l.length).filter (fun i => (l[i]?.map Entity.valid).getD false) := by
      apply List.filter_congr
      intro i hi
      rw [List.mem_range] at hi
      rw [List.getElem?_append_left hi]
    rw [h1, ih, List.filter_singleton, List.getElem?_concat_length]
    cases hv : a.valid <;> simp [hv]

/-- C15: `GetEntityIdList` returns a strictly ascending list; an id is in it exactly
when it is an index of the entity records whose record is marked valid; its length is
the number of records marked valid. The method is `const`, so its embedding returns
the list only and there is no scene after the call that could differ. -/
theorem GetEntityIdList_spec (s : Scene R) :
    s.GetEntityIdList.Pairwise (fun a b => a < b) ∧
    (∀ i, i ∈ s.GetEntityIdList ↔
      i < s.entities.length ∧ ∃ e, s.entities[i]? = some e ∧ e.valid = true) ∧
    s.GetEntityIdList.length = s.entities.countP (fun e => e.valid) := by
  refine ⟨?_, ?_, ?_⟩
  · rw [GetEntityIdList_eq_filter]
    exact List.Pairwise.filter _ (List.pairwise_lt_range _)
  · intro i
    rw [mem_GetEntityIdList]
    constructor
    · rintro ⟨e, he, hv⟩
      exact ⟨getElem?_lt_length he, e, he, hv⟩
    · rintro ⟨_, h⟩
      exact h
  · rw [GetEntityIdList_eq_filter]
    exact length_filter_range_valid s.entities

end ks.ecs.Scene

namespace ks.ecs.ComponentList

/-! ## Component stores: repeated `Create` and capacity -/

variable {α : Type} [Inhabited α]

theorem toMask_or_maskBit_idem (K : SceneKey) (m i : Nat) :
    detail.toMask K (detail.toMask K (m ||| detail.maskBit K i) ||| detail.maskBit K i) =
      detail.toMask K (m ||| detail.maskBit K i) := by
  apply Nat.eq_of_testBit_eq
  intro j
  simp only [detail.testBit_or_maskBit]
  by_cases hj : j < detail.MaskBits K <;> by_cases hij : i = j <;> simp [hj, hij]

theorem grown_of_lt (self : ComponentList α) (id : Nat) (h : id < self.m_list_data.length) :
    self.grown id = self.m_list_data := by
  unfold grown
  rw [if_neg (by omega)]

theorem length_grown (self : ComponentList α) (id : Nat) :
    (self.grown id).length =
      if self.m_list_data.length ≤ id then id + 25 else self.m_list_data.length := by
  unfold grown
  by_cases h : self.m_list_data.length ≤ id
  · rw [if_pos (by omega), if_pos h, length_vecResize]
  · rw [if_neg (by omega), if_neg h]

/-- C16: `Create(id, v1)` followed by `Create(id, v2)` on the same store returns the
same store and the same entity records as the single call `Create(id, v2)`; the
value stored at `id` is `v2`, and the entity's mask after the second call is its mask
after the first. -/
theorem Create_twice (K : SceneKey) (self : ComponentList α) (ents : List Entity)
    (id : Nat) (v1 v2 : α) (hid : id < ents.length) :
    ∃ st1 ents1 st2 ents2 e1 e2,
      self.Create K ents id v1 = some (st1, ents1) ∧
      st1.Create K ents1 id v2 = some (st2, ents2) ∧
      self.Create K ents id v2 = some (st2, ents2) ∧
      st2.GetSparseList[id]? = some v2 ∧
      ents1[id]? = some e1 ∧ ents2[id]? = some e2 ∧ e2.mask = e1.mask := by
  have he : ents[id]? = some ents[id] := List.getElem?_eq_getElem hid
  have h1 := Create_eq K self ents id v1 _ he
  have he1 : (ents.set id { ents[id] with
      mask := detail.toMask K (ents[id].mask ||| detail.maskBit K self.index) })[id]? =
      some { ents[id] with
        mask := detail.toMask K (ents[id].mask ||| detail.maskBit K self.index) } :=
    List.getElem?_set_self hid
  have h2 := Create_eq K { self with m_list_data := (self.grown id).set id v1 } _ id v2 _ he1
  have hlen : id < ((self.grown id).set id v1).length := by
    rw [List.length_set]; exact self.lt_length_grown id
  rw [grown_of_lt ({ self with m_list_data := (self.grown id).set id v1 }) id hlen] at h2
  simp only [List.set_set, toMask_or_maskBit_idem] at h2
  have h3 := Create_eq K self ents id v2 _ he
  refine ⟨_, _, _, _, _, _, h1, h2, h3, getElem?_grown_set_self self id v2, he1,
    List.getElem?_set_self hid, rfl⟩

/-- C16, at a concrete input: values 11 and 1 written in turn for entity 1. -/
theorem Create_twice_witness :
    ∃ st1 ents1 st2 ents2 e1 e2,
      ({ index := 0, m_list_data := [] } : ComponentList Nat).Create
        { max_component_types := 8 }
        [{ valid := false, mask := 0 }, { valid := true, mask := 0 }] 1 11 = some (st1, ents1) ∧
      st1.Create { max_component_types := 8 } ents1 1 1 = some (st2, ents2) ∧
      ({ index := 0, m_list_data := [] } : ComponentList Nat).Create
        { max_component_types := 8 }
        [{ valid := false, mask := 0 }, { valid := true, mask := 0 }] 1 1 = some (st2, ents2) ∧
      st2.GetSparseList[1]? = some 1 ∧
      ents1[1]? = some e1 ∧ ents2[1]? = some e2 ∧ e2.mask = e1.mask :=
  Create_twice { max_component_types := 8 } { index := 0, m_list_data := [] }
    [{ valid := false, mask := 0 }, { valid := true, mask := 0 }] 1 11 1 (by decide)

/-- C17 as stated fails: `Create(3, v)` on an empty store gives capacity 28, which
exceeds the capacity before the call by 28, not by a multiple of 25. -/
theorem Create_growth_not_multiple_of_25 :
    (({ index := 0, m_list_data := [] } : ComponentList Nat).Create
        { max_component_types := 8 }
        [{ valid := false, mask := 0 }, { valid := true, mask := 0 },
          { valid := true, mask := 0 }, { valid := true, mask := 0 }] 3 7).map
      (fun p => p.1.GetSparseList.length) = some 28 ∧
    ¬ (25 ∣ 28 - ({ index := 0, m_list_data := [] } : ComponentList Nat).GetSparseList.length) := by
  decide

/-- C17, amended: for an id that is not below the current capacity, the capacity
after `Create(id, v)` is `id + 25`, which exceeds the capacity before the call by
`(id - capacity) + 25`: at least 25, and exactly 25 when `id` equals the old capacity;
for an id below the current capacity the capacity is unchanged. -/
theorem Create_capacity (K : SceneKey) (self : ComponentList α) (ents : List Entity)
    (id : Nat) (v : α) (hid : id < ents.length) :
    ∃ st ents', self.Create K ents id v = some (st, ents') ∧
      (self.GetSparseList.length ≤ id →
        st.GetSparseList.length = id + 25 ∧
        st.GetSparseList.length - self.GetSparseList.length =
          (id - self.GetSparseList.length) + 25 ∧
        (id = self.GetSparseList.length →
          st.GetSparseList.length = self.GetSparseList.length + 25)) ∧
      (id < self.GetSparseList.length →
        st.GetSparseList.length = self.GetSparseList.length) := by
  have he : ents[id]? = some ents[id] := List.getElem?_eq_getElem hid
  refine ⟨_, _, Create_eq K self ents id v _ he, ?_, ?_⟩
  · intro hle
    simp only [GetSparseList] at hle ⊢
    have hlen : ((self.grown id).set id v).length = id + 25 := by
      rw [List.length_set, length_grown, if_pos hle]
    rw [hlen]
    refine ⟨rfl, by omega, fun heq => by omega⟩
  · intro hlt
    simp only [GetSparseList] at hlt ⊢
    rw [List.length_set, length_grown, if_neg (by omega)]

/-- C17 amended, at a concrete input: `Create(3, 7)` on an empty store. -/
theorem Create_capacity_witness :
    ∃ st ents', ({ index := 0, m_list_data := [] } : ComponentList Nat).Create
        { max_component_types := 8 }
        [{ valid := false, mask := 0 }, { valid := true, mask := 0 },
          { valid := true, mask := 0 }, { valid := true, mask := 0 }] 3 7 = some (st, ents') ∧
      (({ index := 0, m_list_data := [] } : ComponentList Nat).GetSparseList.length ≤ 3 →
        st.GetSparseList.length = 3 + 25 ∧
        st.GetSparseList.length -
            ({ index := 0, m_list_data := [] } : ComponentList Nat).GetSparseList.length =
          (3 - ({ index := 0, m_list_data := [] } : ComponentList Nat).GetSparseList.length)
            + 25 ∧
        (3 = ({ index := 0, m_list_data := [] } : ComponentList Nat).GetSparseList.length →
          st.GetSparseList.length =
            ({ index := 0, m_list_data := [] } : ComponentList Nat).GetSparseList.length
              + 25)) ∧
      (3 < ({ index := 0, m_list_data := [] } : ComponentList Nat).GetSparseList.length →
        st.GetSparseList.length =
          ({ index := 0, m_list_data := [] } : ComponentList Nat).GetSparseList.length) :=
  Create_capacity { max_component_types := 8 } { index := 0, m_list_data := [] }
    [{ valid := false, mask := 0 }, { valid := true, mask := 0 },
      { valid := true, mask := 0 }, { valid := true, mask := 0 }] 3 7 (by decide)

end ks.ecs.ComponentList

namespace ks.ecs

/-! ## The recycler contract and `CreateEntity` -/

theorem stackRecycler_contract :
    stackRecycler.Contract stackRecycler.used stackRecycler.wf where
  add_wf := by
    rintro ⟨n, free⟩ ents e ⟨h1, h2, h3⟩
    simp only at h1 h2 h3
    cases free with
    | nil =>
      refine ⟨?_, List.nodup_nil, fun k hk => absurd hk (List.not_mem_nil k)⟩
      simp [stackRecycler, h1]
    | cons id rest =>
      rw [List.nodup_cons] at h2
      refine ⟨?_, h2.2, fun k hk => ?_⟩
      · simp [stackRecycler, h1]
      · simp only [stackRecycler, List.length_set]
        exact h3 k (List.mem_cons_of_mem _ hk)
  add_le := by
    rintro ⟨n, free⟩ ents e ⟨h1, h2, h3⟩
    simp only at h1 h2 h3
    cases free with
    | nil => simp [stackRecycler]
    | cons id rest =>
      have := h3 id (List.mem_cons_self _ _)
      simp only [stackRecycler]
      omega
  add_list := by
    rintro ⟨n, free⟩ ents e ⟨h1, h2, h3⟩
    simp only at h1 h2 h3
    cases free with
    | nil => simp [stackRecycler]
    | cons id rest =>
      have : id < ents.length := by
        have := h3 id (List.mem_cons_self _ _); omega
      simp [stackRecycler, this]
  add_fresh := by
    rintro ⟨n, free⟩ ents e ⟨h1, h2, h3⟩
    simp only at h1 h2 h3
    cases free with
    | nil =>
      simp only [stackRecycler, stackRecycler.used]
      omega
    | cons id rest =>
      simp [stackRecycler, stackRecycler.used]
  add_used := by
    rintro ⟨n, free⟩ ents e k ⟨h1, h2, h3⟩
    simp only at h1 h2 h3
    cases free with
    | nil =>
      simp only [stackRecycler, stackRecycler.used, List.not_mem_nil, not_false_eq_true,
        and_true]
      omega
    | cons id rest =>
      rw [List.nodup_cons] at h2
      have hid : id < n := by
        have := h3 id (List.mem_cons_self _ _); omega
      simp only [stackRecycler, stackRecycler.used, List.mem_cons, not_or]
      constructor
      · rintro ⟨hk, hkr⟩
        by_cases hki : k = id
        · exact Or.inl hki
        · exact Or.inr ⟨hk, hki, hkr⟩
      · rintro (rfl | ⟨hk, _, hkr⟩)
        · exact ⟨hid, h2.1⟩
        · exact ⟨hk, hkr⟩
  remove_wf := by
    rintro ⟨n, free⟩ ents id ⟨h1, h2, h3⟩ ⟨hu1, hu2⟩
    simp only at h1 h2 h3 hu1 hu2
    refine ⟨?_, List.nodup_cons.2 ⟨hu2, h2⟩, ?_⟩
    · simp [stackRecycler, h1]
    · intro k hk
      simp only [stackRecycler, List.length_set]
      simp only [stackRecycler, List.mem_cons] at hk
      rcases hk with rfl | hk
      · omega
      · have := h3 k hk; omega
  remove_length := by
    rintro ⟨n, free⟩ ents id _ _
    simp [stackRecycler]
  remove_other := by
    rintro ⟨n, free⟩ ents id k _ _ hk
    simp only [stackRecycler]
    exact List.getElem?_set_ne (Ne.symm hk)
  remove_used := by
    rintro ⟨n, free⟩ ents id k _ _
    simp only [stackRecycler, stackRecycler.used, List.mem_cons, not_or]
    constructor
    · rintro ⟨h1, h2, h3⟩
      exact ⟨⟨h1, h3⟩, h2⟩
    · rintro ⟨⟨h1, h3⟩, h2⟩
      exact ⟨h1, h2, h3⟩
  used_lt := by
    rintro ⟨n, free⟩ m k ⟨h1, _, _⟩ ⟨hu1, _⟩
    simp only at h1 hu1
    omega

namespace Scene

variable {R : Type}

/-- What `CreateEntity` does under the recycler contract. -/
theorem CreateEntity_facts (L : RecycleIndexList R) (used : R → Nat → Prop)
    (wf : R → Nat → Prop) (hC : L.Contract used wf) (s : Scene R)
    (hwf : wf s.recycler s.entities.length) :
    (CreateEntity L s).1 ≤ s.entities.length ∧
    ¬ used s.recycler (CreateEntity L s).1 ∧
    (CreateEntity L s).2.entities[(CreateEntity L s).1]? =
      some { valid := true, mask := 0 } ∧
    (∀ k, k ≠ (CreateEntity L s).1 →
      (CreateEntity L s).2.entities[k]? = s.entities[k]?) ∧
    s.entities.length ≤ (CreateEntity L s).2.entities.length ∧
    (∀ k, used (CreateEntity L s).2.recycler k ↔
      k = (CreateEntity L s).1 ∨ used s.recycler k) ∧
    wf (CreateEntity L s).2.recycler (CreateEntity L s).2.entities.length ∧
    (CreateEntity L s).2.m_list_cm_lists = s.m_list_cm_lists := by
  have hle := hC.add_le s.recycler s.entities { valid := true, mask := 0 } hwf
  have hlist := hC.add_list s.recycler s.entities { valid := true, mask := 0 } hwf
  have hfresh := hC.add_fresh s.recycler s.entities { valid := true, mask := 0 } hwf
  have hused := fun k => hC.add_used s.recycler s.entities { valid := true, mask := 0 } k hwf
  have hwf' := hC.add_wf s.recycler s.entities { valid := true, mask := 0 } hwf
  show (L.Add s.recycler s.entities { valid := true, mask := 0 }).1 ≤ _ ∧
    ¬ used s.recycler (L.Add s.recycler s.entities { valid := true, mask := 0 }).1 ∧
    (L.Add s.recycler s.entities { valid := true, mask := 0 }).2.2[
      (L.Add s.recycler s.entities { valid := true, mask := 0 }).1]? = _ ∧
    (∀ k, k ≠ (L.Add s.recycler s.entities { valid := true, mask := 0 }).1 →
      (L.Add s.recycler s.entities { valid := true, mask := 0 }).2.2[k]? = s.entities[k]?) ∧
    s.entities.length ≤ (L.Add s.recycler s.entities { valid := true, mask := 0 }).2.2.length ∧
    (∀ k, used (L.Add s.recycler s.entities { valid := true, mask := 0 }).2.1 k ↔
      k = (L.Add s.recycler s.entities { valid := true, mask := 0 }).1 ∨ used s.recycler k) ∧
    wf (L.Add s.recycler s.entities { valid := true, mask := 0 }).2.1
      (L.Add s.recycler s.entities { valid := true, mask := 0 }).2.2.length ∧
    s.m_list_cm_lists = s.m_list_cm_lists
  generalize L.Add s.recycler s.entities { valid := true, mask := 0 } = res at *
  obtain ⟨id, r', ents'⟩ := res
  simp only at hle hlist hfresh hused hwf' ⊢
  subst hlist
  refine ⟨hle, hfresh, ?_, ?_, ?_, hused, hwf', trivial⟩
  · by_cases h : id < s.entities.length
    · rw [if_pos h]; exact List.getElem?_set_self h
    · rw [if_neg h]
      have : id = s.entities.length := by omega
      rw [this]; exact List.getElem?_concat_length _ _
  · intro k hk
    by_cases h : id < s.entities.length
    · rw [if_pos h]; exact List.getElem?_set_ne (Ne.symm hk)
    · rw [if_neg h]
      have hid : id = s.entities.length := by omega
      rcases Nat.lt_or_ge k s.entities.length with hlt | hge
      · exact List.getElem?_append_left hlt
      · rw [List.getElem?_eq_none (by simp; omega), List.getElem?_eq_none hge]
  · by_cases h : id < s.entities.length
    · rw [if_pos h, List.length_set]
    · rw [if_neg h, List.length_append]; omega

/-- C13: under the recycler contract (`Add` stores the value at the id it returns and
nowhere else, and never returns an id in use), `CreateEntity` returns an id whose
record is `{valid = true, mask = 0}` right after the call; every id in use before the
call differs from it and keeps its record, as does every other index of the records;
the stores are not touched. -/
theorem CreateEntity_record (L : RecycleIndexList R) (used : R → Nat → Prop)
    (wf : R → Nat → Prop) (hC : L.Contract used wf) (s : Scene R)
    (hwf : wf s.recycler s.entities.length) :
    (CreateEntity L s).2.entities[(CreateEntity L s).1]? =
      some { valid := true, mask := 0 } ∧
    (∀ k, used s.recycler k →
      k ≠ (CreateEntity L s).1 ∧ (CreateEntity L s).2.entities[k]? = s.entities[k]?) ∧
    (∀ k, k ≠ (CreateEntity L s).1 →
      (CreateEntity L s).2.entities[k]? = s.entities[k]?) ∧
    (CreateEntity L s).2.m_list_cm_lists = s.m_list_cm_lists := by
  obtain ⟨_, hfresh, hget, hoth, _, _, _, hcms⟩ := CreateEntity_facts L used wf hC s hwf
  refine ⟨hget, ?_, hoth, hcms⟩
  intro k hk
  have hne : k ≠ (CreateEntity L s).1 := fun h => hfresh (h ▸ hk)
  exact ⟨hne, hoth k hne⟩

theorem sampleStart_wf : stackRecycler.wf sampleStart.recycler sampleStart.entities.length :=
  ⟨rfl, List.nodup_nil, fun k hk => absurd hk (List.not_mem_nil k)⟩

/-- C13, at a concrete input: the scene right after construction on the stack
recycler. -/
theorem CreateEntity_record_witness :
    (CreateEntity stackRecycler sampleStart).2.entities[
        (CreateEntity stackRecycler sampleStart).1]? =
      some { valid := true, mask := 0 } ∧
    (∀ k, stackRecycler.used sampleStart.recycler k →
      k ≠ (CreateEntity stackRecycler sampleStart).1 ∧
        (CreateEntity stackRecycler sampleStart).2.entities[k]? = sampleStart.entities[k]?) ∧
    (∀ k, k ≠ (CreateEntity stackRecycler sampleStart).1 →
      (CreateEntity stackRecycler sampleStart).2.entities[k]? = sampleStart.entities[k]?) ∧
    (CreateEntity stackRecycler sampleStart).2.m_list_cm_lists =
      sampleStart.m_list_cm_lists :=
  CreateEntity_record stackRecycler stackRecycler.used stackRecycler.wf
    stackRecycler_contract sampleStart sampleStart_wf

end Scene

end ks.ecs

namespace ks.ecs

/-! ## Calls that return: what they returned -/

theorem ComponentList.Create_some {α : Type} [Inhabited α] (K : SceneKey)
    (self : ComponentList α) (ents : List Entity) (id : Nat) (v : α)
    (l : ComponentList α) (ents' : List Entity)
    (h : self.Create K ents id v = some (l, ents')) :
    ∃ e, ents[id]? = some e ∧
      l = { self with m_list_data := (self.grown id).set id v } ∧
      ents' = ents.set id
        { e with mask := detail.toMask K (e.mask ||| detail.maskBit K self.index) } := by
  cases he : ents[id]? with
  | none =>
    have hn : self.Create K ents id v = none := by
      unfold ComponentList.Create addComponentToEntityMask
      rw [he]
      simp
    rw [hn] at h; cases h
  | some e =>
    rw [ComponentList.Create_eq K self ents id v e he] at h
    injection h with h
    injection h with h1 h2
    exact ⟨e, rfl, h1.symm, h2.symm⟩

theorem ComponentListBase.Remove_some (K : SceneKey) (cm cm' : ComponentListBase)
    (ents ents' : List Entity) (id : Nat) (h : cm.Remove K ents id = some (cm', ents')) :
    ∃ e, ents[id]? = some e ∧ id < cm.list.m_list_data.length ∧
      cm' = { cm with list :=
        { cm.list with m_list_data := @ComponentList.trimmed _ cm.inst cm.list ents id } } ∧
      ents' = ents.set id
        { e with mask := detail.toMask K (e.mask &&& detail.maskBitCompl K cm.list.index) } := by
  by_cases hcap : id < cm.list.m_list_data.length
  · cases he : ents[id]? with
    | none =>
      have hn : cm.Remove K ents id = none := by
        unfold ComponentListBase.Remove ComponentList.Remove removeComponentFromEntityMask
        rw [he]
        simp only [hcap, if_true]
      rw [hn] at h; cases h
    | some e =>
      rw [ComponentListBase.Remove_base_eq K cm ents id e he hcap] at h
      injection h with h
      injection h with h1 h2
      exact ⟨e, rfl, hcap, h1.symm, h2.symm⟩
  · have hn : cm.Remove K ents id = none := by
      unfold ComponentListBase.Remove ComponentList.Remove
      simp only [hcap, if_false]
    rw [hn] at h; cases h

namespace Scene

variable {R : Type}

/-- A property of the stores and the entity records that every `Remove(id)` on a
registered store keeps is kept by the loop of `RemoveEntity`. -/
theorem removeComponents_keeps (K : SceneKey) (id : Nat)
    (P : List (Option ComponentListBase) → List Entity → Prop)
    (hstep : ∀ cms ents i cm cm' ents', P cms ents → cms[i]? = some (some cm) →
      cm.Remove K ents id = some (cm', ents') → P (cms.set i (some cm')) ents')
    (is : List Nat) (cms : List (Option ComponentListBase)) (ents : List Entity)
    (calls : List Nat) (cms' : List (Option ComponentListBase)) (ents' : List Entity)
    (calls' : List Nat)
    (h : removeComponents K id is (cms, ents, calls) = some (cms', ents', calls'))
    (hP : P cms ents) : P cms' ents' := by
  induction is generalizing cms ents calls with
  | nil =>
    simp only [removeComponents] at h
    injection h with h
    injection h with h1 h2
    injection h2 with h2 h3
    subst h1 h2
    exact hP
  | cons i is ih =>
    unfold removeComponents at h
    cases he : ents[id]? with
    | none => rw [he] at h; cases h
    | some e =>
      rw [he] at h
      simp only at h
      by_cases hc : e.mask &&& 1 <<< i ≠ 0
      · rw [if_pos hc] at h
        cases hcm : cms[i]? with
        | none => rw [hcm] at h; cases h
        | some o =>
          cases o with
          | none => rw [hcm] at h; cases h
          | some cm =>
            rw [hcm] at h
            simp only at h
            cases hr : cm.Remove K ents id with
            | none => rw [hr] at h; cases h
            | some p =>
              obtain ⟨cm1, ents1⟩ := p
              rw [hr] at h
              exact ih _ _ _ h (hstep cms ents i cm cm1 ents1 hP hcm hr)
      · rw [if_neg hc] at h
        exact ih _ _ _ h hP

/-- After the loop of `RemoveEntity` over `is`, when every registered store sits at
the index of its own component type, the bits of the mask at the positions of `is`
are clear. -/
theorem removeComponents_clears (K : SceneKey) (id : Nat)
    (is : List Nat) (cms : List (Option ComponentListBase)) (ents : List Entity)
    (calls : List Nat) (cms' : List (Option ComponentListBase)) (ents' : List Entity)
    (calls' : List Nat)
    (hidx : ∀ (t : Nat) (cm : ComponentListBase), cms[t]? = some (some cm) →
      cm.list.index = t)
    (h : removeComponents K id is (cms, ents, calls) = some (cms', ents', calls')) :
    ∀ e', ents'[id]? = some e' → ∀ i ∈ is, e'.mask.testBit i = false := by
  -- a bit that is clear stays clear
  have hmono : ∀ (j : Nat) (is : List Nat) (cms : List (Option ComponentListBase))
      (ents : List Entity) (calls : List Nat) (cms' : List (Option ComponentListBase))
      (ents' : List Entity) (calls' : List Nat),
      removeComponents K id is (cms, ents, calls) = some (cms', ents', calls') →
      (∀ e, ents[id]? = some e → e.mask.testBit j = false) →
      ∀ e', ents'[id]? = some e' → e'.mask.testBit j = false := by
    intro j is cms ents calls cms' ents' calls' hrun hstart
    refine removeComponents_keeps K id
      (fun _ ents => ∀ e, ents[id]? = some e → e.mask.testBit j = false)
      ?_ is cms ents calls cms' ents' calls' hrun hstart
    intro cms ents i cm cm1 ents1 hP _ hr e1 he1
    obtain ⟨e, he, _, _, rfl⟩ := ComponentListBase.Remove_some K cm cm1 ents ents1 id hr
    rw [List.getElem?_set_self (getElem?_lt_length he)] at he1
    injection he1 with he1
    subst he1
    show (detail.toMask K (e.mask &&& detail.maskBitCompl K cm.list.index)).testBit j = false
    rw [detail.testBit_and_maskBitCompl, hP e he]
    simp
  induction is generalizing cms ents calls with
  | nil => intro e' _ i hi; cases hi
  | cons i0 is ih =>
    intro e' he' i hi
    have h0 := h
    unfold removeComponents at h
    cases he : ents[id]? with
    | none => rw [he] at h; cases h
    | some e =>
      rw [he] at h
      simp only at h
      by_cases hc : e.mask &&& 1 <<< i0 ≠ 0
      · rw [if_pos hc] at h
        cases hcm : cms[i0]? with
        | none => rw [hcm] at h; cases h
        | some o =>
          cases o with
          | none => rw [hcm] at h; cases h
          | some cm =>
            rw [hcm] at h
            simp only at h
            cases hr : cm.Remove K ents id with
            | none => rw [hr] at h; cases h
            | some p =>
              obtain ⟨cm1, ents1⟩ := p
              rw [hr] at h
              simp only at h
              obtain ⟨e0, he0, _, hcm1, hents1⟩ :=
                ComponentListBase.Remove_some K cm cm1 ents ents1 id hr
              have hidx1 : ∀ (t : Nat) (c : ComponentListBase),
                  (cms.set i0 (some cm1))[t]? = some (some c) → c.list.index = t := by
                intro t c hc'
                by_cases hti : i0 = t
                · subst hti
                  rw [List.getElem?_set_self (getElem?_lt_length hcm)] at hc'
                  injection hc' with hc'
                  injection hc' with hc'
                  rw [← hc', hcm1]
                  exact hidx i0 cm hcm
                · rw [List.getElem?_set_ne hti] at hc'
                  exact hidx t c hc'
              rcases List.mem_cons.1 hi with rfl | hi'
              · refine hmono i is _ _ _ _ _ _ h ?_ e' he'
                intro e1 he1
                rw [hents1, List.getElem?_set_self (getElem?_lt_length he0)] at he1
                injection he1 with he1
                subst he1
                show (detail.toMask K
                  (e0.mask &&& detail.maskBitCompl K cm.list.index)).testBit i = false
                rw [detail.testBit_and_maskBitCompl, hidx i cm hcm]
                simp
              · exact ih _ _ _ hidx1 h e' he' i hi'
      · rw [if_neg hc] at h
        rcases List.mem_cons.1 hi with rfl | hi'
        · refine hmono i is _ _ _ _ _ _ h ?_ e' he'
          intro e1 he1
          rw [he] at he1
          injection he1 with he1
          subst he1
          have := (and_one_shiftLeft_ne_zero e.mask i).not.1 hc
          simpa using this
        · exact ih _ _ _ hidx h e' he' i hi'

/-- `RemoveEntity` that returns: the loop returned, then the id was released. -/
theorem RemoveEntity_some (L : RecycleIndexList R) (K : SceneKey) (s s' : Scene R)
    (id : Nat) (h : RemoveEntity L K s id = some s') :
    ∃ e cms ents calls, s.entities[id]? = some e ∧
      ((e.mask = 0 ∧ cms = s.m_list_cm_lists ∧ ents = s.entities) ∨
        removeComponents K id (List.range K.max_component_types)
          (s.m_list_cm_lists, s.entities, []) = some (cms, ents, calls)) ∧
      s' = release L { s with entities := ents, m_list_cm_lists := cms } id := by
  unfold RemoveEntity RemoveEntity_components at h
  cases he : s.entities[id]? with
  | none => rw [he] at h; cases h
  | some e =>
    rw [he] at h
    simp only at h
    by_cases hpos : e.mask > 0
    · rw [if_pos hpos] at h
      cases hr : removeComponents K id (List.range K.max_component_types)
          (s.m_list_cm_lists, s.entities, []) with
      | none => rw [hr] at h; cases h
      | some p =>
        obtain ⟨cms, ents, calls⟩ := p
        rw [hr] at h
        simp only at h
        injection h with h
        exact ⟨e, cms, ents, calls, rfl, Or.inr rfl, h.symm⟩
    · rw [if_neg hpos] at h
      simp only at h
      injection h with h
      exact ⟨e, s.m_list_cm_lists, s.entities, [], rfl, Or.inl ⟨by omega, rfl, rfl⟩, h.symm⟩

end Scene

end ks.ecs

namespace ks.ecs.Scene

/-! ## Runs of calls: the sentinel entity -/

variable {R : Type}

theorem Steps_invariant (L : RecycleIndexList R) (used : R → Nat → Prop) (K : SceneKey)
    (strict : Prop) (Inv : Scene R → Prop)
    (hstep : ∀ s s', Inv s → Step L used K strict s s' → Inv s')
    (s0 s : Scene R) (h0 : Inv s0) (hrun : Steps L used K strict s0 s) : Inv s := by
  unfold Steps at hrun
  induction hrun with
  | refl => exact h0
  | tail _ hlast ih => exact hstep _ _ ih hlast

theorem RegisterComponentList_some (s s' : Scene R) (idx : Nat) (cm : ComponentListBase)
    (h : RegisterComponentList s idx cm = some s') :
    s'.recycler = s.recycler ∧ s'.entities = s.entities ∧
    ((s.m_list_cm_lists[idx]? = some none ∧
        s'.m_list_cm_lists = s.m_list_cm_lists.set idx (some cm)) ∨
      ((∃ c, s.m_list_cm_lists[idx]? = some (some c)) ∧
        s'.m_list_cm_lists = s.m_list_cm_lists)) := by
  unfold RegisterComponentList at h
  cases hc : s.m_list_cm_lists[idx]? with
  | none => rw [hc] at h; cases h
  | some o =>
    cases o with
    | none =>
      rw [hc] at h
      injection h with h
      subst h
      exact ⟨rfl, rfl, Or.inl ⟨rfl, rfl⟩⟩
    | some c =>
      rw [hc] at h
      injection h with h
      subst h
      exact ⟨rfl, rfl, Or.inr ⟨⟨c, rfl⟩, rfl⟩⟩

/-- The scene right after construction, under the recycler contract. -/
theorem new_facts (L : RecycleIndexList R) (used : R → Nat → Prop) (wf : R → Nat → Prop)
    (hC : L.Contract used wf) (K : SceneKey) (r0 : R) (hwf0 : wf r0 0) :
    ∃ s0, Scene.new L r0 K = some s0 ∧
      s0.entities = [{ valid := false, mask := 0 }] ∧
      s0.m_list_cm_lists = List.replicate K.max_component_types none ∧
      wf s0.recycler s0.entities.length ∧ used s0.recycler 0 := by
  have hfacts := CreateEntity_facts L used wf hC
    { recycler := r0, entities := [],
      m_list_cm_lists := List.replicate K.max_component_types none } hwf0
  have hlist := hC.add_list r0 [] { valid := true, mask := 0 } hwf0
  obtain ⟨hle, _, _, _, _, hused, hwf', _⟩ := hfacts
  have hid : (CreateEntity L
      { recycler := r0, entities := [],
        m_list_cm_lists := List.replicate K.max_component_types none }).1 = 0 := by
    simpa using hle
  have hents : (CreateEntity L
      { recycler := r0, entities := [],
        m_list_cm_lists := List.replicate K.max_component_types none }).2.entities =
      [{ valid := true, mask := 0 }] := by
    show (L.Add r0 [] { valid := true, mask := 0 }).2.2 = _
    rw [hlist]
    simp
  unfold Scene.new
  simp only [hid, hents]
  refine ⟨_, rfl, rfl, rfl, ?_, ?_⟩
  · simp only [List.set_cons_zero, List.length_singleton]
    rw [hents] at hwf'
    exact hwf'
  · exact (hused 0).2 (Or.inl hid.symm)

theorem sentinel_set_mask (ents : List Entity) (id : Nat) (e : Entity) (m : Nat)
    (he : ents[id]? = some e)
    (h0 : ∃ e0, ents[0]? = some e0 ∧ e0.valid = false) :
    ∃ e0, (ents.set id { e with mask := m })[0]? = some e0 ∧ e0.valid = false := by
  obtain ⟨e0, he0, hv⟩ := h0
  by_cases hid : id = 0
  · subst hid
    rw [he] at he0
    injection he0 with he0
    subst he0
    exact ⟨_, List.getElem?_set_self (getElem?_lt_length he), hv⟩
  · exact ⟨e0, by rw [List.getElem?_set_ne hid]; exact he0, hv⟩

/-- Every call keeps: the recycler bookkeeping fits the records, id 0 is in use and
its record is marked invalid. -/
theorem Step_keeps_sentinel (L : RecycleIndexList R) (used : R → Nat → Prop)
    (wf : R → Nat → Prop) (hC : L.Contract used wf) (K : SceneKey) (strict : Prop)
    (s s' : Scene R)
    (hinv : wf s.recycler s.entities.length ∧ used s.recycler 0 ∧
      ∃ e0, s.entities[0]? = some e0 ∧ e0.valid = false)
    (hstep : Step L used K strict s s') :
    wf s'.recycler s'.entities.length ∧ used s'.recycler 0 ∧
      ∃ e0, s'.entities[0]? = some e0 ∧ e0.valid = false := by
  obtain ⟨hwf, hu0, e0, he0, hv0⟩ := hinv
  cases hstep with
  | createEntity =>
    obtain ⟨_, hfresh, _, hoth, _, hused, hwf', _⟩ := CreateEntity_facts L used wf hC s hwf
    have hne : (0 : Nat) ≠ (CreateEntity L s).1 := fun h => hfresh (h ▸ hu0)
    exact ⟨hwf', (hused 0).2 (Or.inr hu0), e0, by rw [hoth 0 hne]; exact he0, hv0⟩
  | removeEntity _ id hlive hrem =>
    obtain ⟨hu, e, he, hv⟩ := hlive
    have hid0 : (0 : Nat) ≠ id := by
      intro h
      subst h
      rw [he0] at he
      injection he with he
      subst he
      rw [hv0] at hv
      cases hv
    obtain ⟨e1, cms, ents, calls, _, hloop, rfl⟩ := RemoveEntity_some L K s s' id hrem
    have hmid : ents.length = s.entities.length ∧
        ∃ e0, ents[0]? = some e0 ∧ e0.valid = false := by
      rcases hloop with ⟨_, _, rfl⟩ | hloop
      · exact ⟨rfl, e0, he0, hv0⟩
      · refine removeComponents_keeps K id
          (fun _ ents => ents.length = s.entities.length ∧
            ∃ e0, ents[0]? = some e0 ∧ e0.valid = false)
          ?_ _ _ _ _ _ _ _ hloop ⟨rfl, e0, he0, hv0⟩
        intro cms1 ents1 i cm cm1 ents2 hP _ hr
        obtain ⟨e2, he2, _, _, rfl⟩ := ComponentListBase.Remove_some K cm cm1 ents1 ents2 id hr
        exact ⟨by rw [List.length_set]; exact hP.1, sentinel_set_mask ents1 id e2 _ he2 hP.2⟩
    obtain ⟨hlen, e0', he0', hv0'⟩ := hmid
    have hwfm : wf s.recycler ents.length := by rw [hlen]; exact hwf
    refine ⟨hC.remove_wf s.recycler ents id hwfm hu, ?_, e0', ?_, hv0'⟩
    · exact (hC.remove_used s.recycler ents id 0 hwfm hu).2 ⟨hu0, hid0⟩
    · show (L.Remove s.recycler ents id).2[0]? = some e0'
      rw [hC.remove_other s.recycler ents id 0 hwfm hu hid0]
      exact he0'
  | register _ cm _ hreg =>
    obtain ⟨hr, hents, _⟩ := RegisterComponentList_some s s' cm.list.index cm hreg
    rw [hr, hents]
    exact ⟨hwf, hu0, e0, he0, hv0⟩
  | create t cm id v l ents _ _ hcreate =>
    obtain ⟨e, he, _, rfl⟩ :=
      @ComponentList.Create_some cm.ComponentType cm.inst K cm.list s.entities id v l ents
        hcreate
    refine ⟨?_, hu0, sentinel_set_mask s.entities id e _ he ⟨e0, he0, hv0⟩⟩
    show wf s.recycler (s.entities.set id _).length
    rw [List.length_set]; exact hwf
  | remove t cm cm' id ents _ _ hremove =>
    obtain ⟨e, he, _, _, rfl⟩ := ComponentListBase.Remove_some K cm cm' s.entities ents id hremove
    refine ⟨?_, hu0, sentinel_set_mask s.entities id e _ he ⟨e0, he0, hv0⟩⟩
    show wf s.recycler (s.entities.set id _).length
    rw [List.length_set]; exact hwf

/-- C14: under the recycler contract, construction of a scene on an empty recycler
returns a scene whose record at id 0 exists and is marked invalid; and in every scene
`s` reached from it by a run of `CreateEntity`, `RemoveEntity` (on live entities),
`RegisterComponentList`, `Create` and `Remove` calls, the record at id 0 is still
marked invalid, `CreateEntity` does not return 0, and 0 is not in
`GetEntityIdList()`. -/
theorem sentinel_entity (L : RecycleIndexList R) (used : R → Nat → Prop)
    (wf : R → Nat → Prop) (hC : L.Contract used wf) (K : SceneKey) (strict : Prop)
    (r0 : R) (hwf0 : wf r0 0) (s : Scene R) :
    ∃ s0, Scene.new L r0 K = some s0 ∧
      (∃ e0, s0.entities[0]? = some e0 ∧ e0.valid = false) ∧
      (Steps L used K strict s0 s →
        (∃ e0, s.entities[0]? = some e0 ∧ e0.valid = false) ∧
        (CreateEntity L s).1 ≠ 0 ∧
        0 ∉ s.GetEntityIdList) := by
  obtain ⟨s0, hnew, hents, _, hwf, hu0⟩ := new_facts L used wf hC K r0 hwf0
  have h0 : ∃ e0, s0.entities[0]? = some e0 ∧ e0.valid = false := by
    rw [hents]; exact ⟨_, rfl, rfl⟩
  refine ⟨s0, hnew, h0, fun hrun => ?_⟩
  obtain ⟨hwfs, hus, e0, he0, hv0⟩ := Steps_invariant L used K strict
    (fun s => wf s.recycler s.entities.length ∧ used s.recycler 0 ∧
      ∃ e0, s.entities[0]? = some e0 ∧ e0.valid = false)
    (fun s s' => Step_keeps_sentinel L used wf hC K strict s s') s0 s ⟨hwf, hu0, h0⟩ hrun
  refine ⟨⟨e0, he0, hv0⟩, ?_, ?_⟩
  · obtain ⟨_, hfresh, _⟩ := CreateEntity_facts L used wf hC s hwfs
    intro h
    exact hfresh (h ▸ hus)
  · rw [mem_GetEntityIdList]
    rintro ⟨e, he, hv⟩
    rw [he0] at he
    injection he with he
    subst he
    rw [hv0] at hv
    cases hv

end ks.ecs.Scene

namespace ks.ecs

/-! ## Runs of calls: slots hold the default value unless owned -/

theorem getElem?_vecResize_new {α : Type} [Inhabited α] (l : List α) (n j : Nat)
    (hl : l.length ≤ j) (hj : j < n) : (vecResize l n)[j]? = some default := by
  unfold vecResize
  have hlen : (List.take n l).length = l.length := by
    simp only [List.length_take]; omega
  rw [List.getElem?_append_right (by omega), hlen, List.getElem?_replicate,
    if_pos (by omega)]

theorem ComponentList.getElem?_grown {α : Type} [Inhabited α] (self : ComponentList α)
    (id j : Nat) (hj : j < (self.grown id).length) :
    (self.grown id)[j]? =
      if j < self.m_list_data.length then self.m_list_data[j]? else some default := by
  unfold ComponentList.grown at hj ⊢
  by_cases hg : ¬ self.m_list_data.length > id
  · rw [if_pos hg] at hj ⊢
    rw [length_vecResize] at hj
    by_cases hjl : j < self.m_list_data.length
    · rw [if_pos hjl]; exact getElem?_vecResize _ _ _ hj hjl
    · rw [if_neg hjl]; exact getElem?_vecResize_new _ _ _ (by omega) hj
  · rw [if_neg hg] at hj ⊢
    rw [if_pos hj]

namespace Scene

variable {R : Type}

/-- `Remove(id)` on a registered store keeps `SlotsInv`. -/
theorem SlotsInv_store_Remove (used : R → Nat → Prop) (wf : R → Nat → Prop) (K : SceneKey)
    (hK : K.max_component_types ≤ 64) (s : Scene R) (t0 : Nat) (cm cm' : ComponentListBase)
    (id : Nat) (ents : List Entity) (hinv : SlotsInv used wf K s)
    (hcm : s.m_list_cm_lists[t0]? = some (some cm))
    (hrem : cm.Remove K s.entities id = some (cm', ents)) :
    SlotsInv used wf K
      { s with entities := ents, m_list_cm_lists := s.m_list_cm_lists.set t0 (some cm') } := by
  obtain ⟨hwf, hlen, hslots⟩ := hinv
  obtain ⟨e, he, hcap, rfl, hents⟩ := ComponentListBase.Remove_some K cm cm' s.entities ents id hrem
  have hid : id < s.entities.length := getElem?_lt_length he
  have ht0 : t0 < s.m_list_cm_lists.length := getElem?_lt_length hcm
  have hw := detail.le_MaskBits K hK
  have hidx0 := (hslots t0 cm hcm).1
  have hlenE : ents.length = s.entities.length := by rw [hents, List.length_set]
  have hgetne : ∀ i, i ≠ id → ents[i]? = s.entities[i]? := by
    intro i hi; rw [hents]; exact List.getElem?_set_ne (Ne.symm hi)
  have hgetid : ∃ e', ents[id]? = some e' ∧ e'.valid = e.valid ∧
      ∀ j, e'.mask.testBit j =
        (decide (j < detail.MaskBits K) && (e.mask.testBit j && !decide (t0 = j))) := by
    refine ⟨({ e with mask := detail.toMask K (e.mask &&& detail.maskBitCompl K cm.list.index) }),
      by rw [hents]; exact List.getElem?_set_self hid, rfl, fun j => ?_⟩
    show (detail.toMask K (e.mask &&& detail.maskBitCompl K cm.list.index)).testBit j = _
    rw [detail.testBit_and_maskBitCompl, hidx0]
  clear hents hrem
  refine ⟨?_, ?_, ?_⟩
  · show wf s.recycler ents.length
    rw [hlenE]; exact hwf
  · show (s.m_list_cm_lists.set t0 _).length = _
    rw [List.length_set]; exact hlen
  · intro t c hc
    -- ownership in the old scene carries over, except for `(t0, id)`
    have hown : ∀ i, (i ≠ id ∨ t ≠ t0) → t < s.m_list_cm_lists.length →
        owns used s t i →
        (used s.recycler i ∧ ∃ e1, ents[i]? = some e1 ∧ e1.valid = true) ∧
          ∃ e2, ents[i]? = some e2 ∧ e2.mask.testBit t = true := by
      rintro i hcase htl ⟨⟨hu, e1, he1, hv1⟩, e2, he2, hb2⟩
      by_cases hi : i = id
      · subst hi
        rw [he] at he1 he2
        injection he1 with he1
        injection he2 with he2
        subst he1 he2
        have htne : t ≠ t0 := by
          rcases hcase with h | h
          · exact absurd rfl h
          · exact h
        obtain ⟨e', he', hv', hb'⟩ := hgetid
        refine ⟨⟨hu, e', he', by rw [hv']; exact hv1⟩, e', he', ?_⟩
        rw [hb' t, hb2]
        have : t < detail.MaskBits K := by omega
        have hne : ¬ t0 = t := fun h => htne h.symm
        simp [this, hne]
      · exact ⟨⟨hu, e1, by rw [hgetne i hi]; exact he1, hv1⟩,
          e2, by rw [hgetne i hi]; exact he2, hb2⟩
    by_cases ht : t0 = t
    · subst ht
      have hc' : (s.m_list_cm_lists.set t0 _)[t0]? = some (some c) := hc
      rw [List.getElem?_set_self ht0] at hc'
      injection hc' with hc'
      injection hc' with hc'
      subst hc'
      refine ⟨hidx0, ?_⟩
      intro i hi hno
      show (@ComponentList.trimmed _ cm.inst cm.list s.entities id)[i]? = _
      rw [@ComponentList.getElem?_trimmed _ cm.inst cm.list s.entities id i hi]
      by_cases hiid : i = id
      · subst hiid
        exact List.getElem?_set_self hcap
      · rw [List.getElem?_set_ne (Ne.symm hiid)]
        have hil : i < cm.list.m_list_data.length :=
          lt_of_lt_of_le hi (@ComponentList.length_trimmed_le _ cm.inst cm.list s.entities id)
        exact (hslots t0 cm hcm).2 i hil
          (fun ho => hno (hown i (Or.inl hiid) ht0 ho))
    · have hc' : s.m_list_cm_lists[t]? = some (some c) := by
        have : (s.m_list_cm_lists.set t0 _)[t]? = some (some c) := hc
        rwa [List.getElem?_set_ne ht] at this
      refine ⟨(hslots t c hc').1, ?_⟩
      intro i hi hno
      exact (hslots t c hc').2 i hi
        (fun ho => hno (hown i (Or.inr (fun h => ht h.symm)) (getElem?_lt_length hc') ho))

/-- `Create(id, v)` on a registered store for a live entity keeps `SlotsInv`. -/
theorem SlotsInv_store_Create (used : R → Nat → Prop) (wf : R → Nat → Prop) (K : SceneKey)
    (hK : K.max_component_types ≤ 64) (s : Scene R) (t0 : Nat) (cm : ComponentListBase)
    (id : Nat) (v : cm.ComponentType) (l : ComponentList cm.ComponentType)
    (ents : List Entity) (hinv : SlotsInv used wf K s) (hlive : live used s id)
    (hcm : s.m_list_cm_lists[t0]? = some (some cm))
    (hcreate : @ComponentList.Create cm.ComponentType cm.inst K cm.list s.entities id v =
      some (l, ents)) :
    SlotsInv used wf K
      { s with entities := ents,
               m_list_cm_lists := s.m_list_cm_lists.set t0
                 (some (@ComponentListBase.mk cm.ComponentType cm.inst l)) } := by
  obtain ⟨hwf, hlen, hslots⟩ := hinv
  obtain ⟨e, he, rfl, hents⟩ :=
    @ComponentList.Create_some cm.ComponentType cm.inst K cm.list s.entities id v l ents hcreate
  have hid : id < s.entities.length := getElem?_lt_length he
  have ht0 : t0 < s.m_list_cm_lists.length := getElem?_lt_length hcm
  have hw := detail.le_MaskBits K hK
  have hidx0 := (hslots t0 cm hcm).1
  have hlenE : ents.length = s.entities.length := by rw [hents, List.length_set]
  have hgetne : ∀ i, i ≠ id → ents[i]? = s.entities[i]? := by
    intro i hi; rw [hents]; exact List.getElem?_set_ne (Ne.symm hi)
  have hgetid : ∃ e', ents[id]? = some e' ∧ e'.valid = e.valid ∧
      ∀ j, e'.mask.testBit j =
        (decide (j < detail.MaskBits K) && (e.mask.testBit j || decide (t0 = j))) := by
    refine ⟨({ e with mask := detail.toMask K (e.mask ||| detail.maskBit K cm.list.index) }),
      by rw [hents]; exact List.getElem?_set_self hid, rfl, fun j => ?_⟩
    show (detail.toMask K (e.mask ||| detail.maskBit K cm.list.index)).testBit j = _
    rw [detail.testBit_or_maskBit, hidx0]
  clear hents hcreate
  obtain ⟨e', he', hv', hb'⟩ := hgetid
  have hvalid : e.valid = true := by
    obtain ⟨_, e1, he1, hv1⟩ := hlive
    rw [he] at he1
    injection he1 with he1
    subst he1
    exact hv1
  refine ⟨?_, ?_, ?_⟩
  · show wf s.recycler ents.length
    rw [hlenE]; exact hwf
  · show (s.m_list_cm_lists.set t0 _).length = _
    rw [List.length_set]; exact hlen
  · intro t c hc
    -- ownership in the old scene carries over
    have hown : ∀ i, t < s.m_list_cm_lists.length → owns used s t i →
        (used s.recycler i ∧ ∃ e1, ents[i]? = some e1 ∧ e1.valid = true) ∧
          ∃ e2, ents[i]? = some e2 ∧ e2.mask.testBit t = true := by
      rintro i htl ⟨⟨hu, e1, he1, hv1⟩, e2, he2, hb2⟩
      by_cases hi : i = id
      · subst hi
        rw [he] at he2
        injection he2 with he2
        subst he2
        refine ⟨⟨hu, e', he', by rw [hv']; exact hvalid⟩, e', he', ?_⟩
        rw [hb' t, hb2]
        have : t < detail.MaskBits K := by omega
        simp [this]
      · exact ⟨⟨hu, e1, by rw [hgetne i hi]; exact he1, hv1⟩,
          e2, by rw [hgetne i hi]; exact he2, hb2⟩
    by_cases ht : t0 = t
    · subst ht
      have hc' : (s.m_list_cm_lists.set t0 _)[t0]? = some (some c) := hc
      rw [List.getElem?_set_self ht0] at hc'
      injection hc' with hc'
      injection hc' with hc'
      subst hc'
      refine ⟨hidx0, ?_⟩
      intro i hi hno
      have hi' : i < ((@ComponentList.grown _ cm.inst cm.list id).set id v).length := hi
      rw [List.length_set] at hi'
      show ((@ComponentList.grown _ cm.inst cm.list id).set id v)[i]? = _
      by_cases hiid : i = id
      · subst hiid
        exfalso
        apply hno
        refine ⟨⟨hlive.1, e', he', by rw [hv']; exact hvalid⟩, e', he', ?_⟩
        rw [hb' t0]
        have : t0 < detail.MaskBits K := by omega
        simp [this]
      · rw [List.getElem?_set_ne (Ne.symm hiid),
          @ComponentList.getElem?_grown _ cm.inst cm.list id i hi']
        by_cases hil : i < cm.list.m_list_data.length
        · rw [if_pos hil]
          exact (hslots t0 cm hcm).2 i hil (fun ho => hno (hown i ht0 ho))
        · rw [if_neg hil]
    · have hc' : s.m_list_cm_lists[t]? = some (some c) := by
        have : (s.m_list_cm_lists.set t0 _)[t]? = some (some c) := hc
        rwa [List.getElem?_set_ne ht] at this
      refine ⟨(hslots t c hc').1, ?_⟩
      intro i hi hno
      exact (hslots t c hc').2 i hi
        (fun ho => hno (hown i (getElem?_lt_length hc') ho))

/-- `CreateEntity` keeps `SlotsInv`. -/
theorem SlotsInv_CreateEntity (L : RecycleIndexList R) (used : R → Nat → Prop)
    (wf : R → Nat → Prop) (hC : L.Contract used wf) (K : SceneKey) (s : Scene R)
    (hinv : SlotsInv used wf K s) : SlotsInv used wf K (CreateEntity L s).2 := by
  obtain ⟨hwf, hlen, hslots⟩ := hinv
  obtain ⟨_, hfresh, _, hoth, _, hused, hwf', hcms⟩ := CreateEntity_facts L used wf hC s hwf
  refine ⟨hwf', by rw [hcms]; exact hlen, ?_⟩
  intro t c hc
  rw [hcms] at hc
  refine ⟨(hslots t c hc).1, ?_⟩
  intro i hi hno
  apply (hslots t c hc).2 i hi
  rintro ⟨⟨hu, e1, he1, hv1⟩, e2, he2, hb2⟩
  have hne : i ≠ (CreateEntity L s).1 := fun h => hfresh (h ▸ hu)
  exact hno ⟨⟨(hused i).2 (Or.inr hu), e1, by rw [hoth i hne]; exact he1, hv1⟩,
    e2, by rw [hoth i hne]; exact he2, hb2⟩

/-- Handing the id back to the recycler keeps `SlotsInv` when the entity owns no
component any more. -/
theorem SlotsInv_release (L : RecycleIndexList R) (used : R → Nat → Prop)
    (wf : R → Nat → Prop) (hC : L.Contract used wf) (K : SceneKey) (s : Scene R)
    (id : Nat) (hinv : SlotsInv used wf K s) (hu : used s.recycler id)
    (hclear : ∀ e, s.entities[id]? = some e →
      ∀ t, t < K.max_component_types → e.mask.testBit t = false) :
    SlotsInv used wf K (release L s id) := by
  obtain ⟨hwf, hlen, hslots⟩ := hinv
  refine ⟨hC.remove_wf s.recycler s.entities id hwf hu, hlen, ?_⟩
  intro t c hc
  have hc' : s.m_list_cm_lists[t]? = some (some c) := hc
  refine ⟨(hslots t c hc').1, ?_⟩
  intro i hi hno
  apply (hslots t c hc').2 i hi
  rintro ⟨⟨hui, e1, he1, hv1⟩, e2, he2, hb2⟩
  by_cases hiid : i = id
  · subst hiid
    have := hclear e2 he2 t (by rw [← hlen]; exact getElem?_lt_length hc')
    rw [this] at hb2
    cases hb2
  · have hget : (L.Remove s.recycler s.entities id).2[i]? = s.entities[i]? :=
      hC.remove_other s.recycler s.entities id i hwf hu hiid
    exact hno ⟨⟨(hC.remove_used s.recycler s.entities id i hwf hu).2 ⟨hui, hiid⟩,
      e1, by rw [← he1]; exact hget, hv1⟩, e2, by rw [← he2]; exact hget, hb2⟩

/-- Registering an empty store at the index of its own component type keeps
`SlotsInv`. -/
theorem SlotsInv_register (used : R → Nat → Prop) (wf : R → Nat → Prop) (K : SceneKey)
    (s s' : Scene R) (cm : ComponentListBase) (hempty : cm.list.m_list_data = [])
    (hreg : RegisterComponentList s cm.list.index cm = some s')
    (hinv : SlotsInv used wf K s) : SlotsInv used wf K s' := by
  obtain ⟨hwf, hlen, hslots⟩ := hinv
  obtain ⟨hr, hents, hcms⟩ := RegisterComponentList_some s s' cm.list.index cm hreg
  have hown : ∀ t i, owns used s t i → owns used s' t i := by
    rintro t i ⟨⟨hu, e1, he1, hv1⟩, e2, he2, hb2⟩
    exact ⟨⟨by rw [hr]; exact hu, e1, by rw [hents]; exact he1, hv1⟩,
      e2, by rw [hents]; exact he2, hb2⟩
  refine ⟨by rw [hr, hents]; exact hwf, ?_, ?_⟩
  · rcases hcms with ⟨_, h⟩ | ⟨_, h⟩
    · rw [h, List.length_set]; exact hlen
    · rw [h]; exact hlen
  · intro t c hc
    rcases hcms with ⟨hnone, h⟩ | ⟨_, h⟩
    · rw [h] at hc
      by_cases ht : cm.list.index = t
      · rw [← ht, List.getElem?_set_self (getElem?_lt_length hnone)] at hc
        injection hc with hc
        injection hc with hc
        subst hc
        refine ⟨ht, ?_⟩
        intro i hi
        rw [hempty] at hi
        cases hi
      · rw [List.getElem?_set_ne ht] at hc
        exact ⟨(hslots t c hc).1, fun i hi hno =>
          (hslots t c hc).2 i hi (fun ho => hno (hown t i ho))⟩
    · rw [h] at hc
      exact ⟨(hslots t c hc).1, fun i hi hno =>
        (hslots t c hc).2 i hi (fun ho => hno (hown t i ho))⟩

/-- `RemoveEntity` on a live entity keeps `SlotsInv`. -/
theorem SlotsInv_RemoveEntity (L : RecycleIndexList R) (used : R → Nat → Prop)
    (wf : R → Nat → Prop) (hC : L.Contract used wf) (K : SceneKey)
    (hK : K.max_component_types ≤ 64) (s s' : Scene R) (id : Nat)
    (hinv : SlotsInv used wf K s) (hlive : live used s id)
    (hrem : RemoveEntity L K s id = some s') : SlotsInv used wf K s' := by
  obtain ⟨e, cms, ents, calls, he, hloop, rfl⟩ := RemoveEntity_some L K s s' id hrem
  have hmid : SlotsInv used wf K { s with entities := ents, m_list_cm_lists := cms } ∧
      ∀ e', ents[id]? = some e' →
        ∀ t, t < K.max_component_types → e'.mask.testBit t = false := by
    rcases hloop with ⟨hz, rfl, rfl⟩ | hloop
    · refine ⟨hinv, ?_⟩
      intro e' he' t _
      rw [he] at he'
      injection he' with he'
      subst he'
      rw [hz]
      exact Nat.zero_testBit t
    · refine ⟨?_, ?_⟩
      · refine removeComponents_keeps K id
          (fun cms ents =>
            SlotsInv used wf K { s with entities := ents, m_list_cm_lists := cms })
          ?_ _ _ _ _ _ _ _ hloop hinv
        intro cms1 ents1 i cm cm1 ents2 hP hcm hr
        exact SlotsInv_store_Remove used wf K hK
          { s with entities := ents1, m_list_cm_lists := cms1 } i cm cm1 id ents2 hP hcm hr
      · intro e' he' t ht
        exact removeComponents_clears K id _ _ _ _ _ _ _
          (fun t cm hcm => (hinv.2.2 t cm hcm).1) hloop e' he' t (List.mem_range.2 ht)
  exact SlotsInv_release L used wf hC K { s with entities := ents, m_list_cm_lists := cms }
    id hmid.1 hlive.1 hmid.2

/-- Every call of a strict run keeps `SlotsInv`. -/
theorem Step_keeps_SlotsInv (L : RecycleIndexList R) (used : R → Nat → Prop)
    (wf : R → Nat → Prop) (hC : L.Contract used wf) (K : SceneKey)
    (hK : K.max_component_types ≤ 64) (s s' : Scene R)
    (hinv : SlotsInv used wf K s) (hstep : Step L used K True s s') :
    SlotsInv used wf K s' := by
  cases hstep with
  | createEntity => exact SlotsInv_CreateEntity L used wf hC K s hinv
  | removeEntity _ id hlive hrem =>
    exact SlotsInv_RemoveEntity L used wf hC K hK s s' id hinv hlive hrem
  | register _ cm hempty hreg => exact SlotsInv_register used wf K s s' cm hempty hreg hinv
  | create t cm id v l ents hl hcm hcreate =>
    exact SlotsInv_store_Create used wf K hK s t cm id v l ents hinv (hl trivial) hcm hcreate
  | remove t cm cm' id ents _ hcm hremove =>
    exact SlotsInv_store_Remove used wf K hK s t cm cm' id ents hinv hcm hremove

/-- The scene right after construction satisfies `SlotsInv`. -/
theorem SlotsInv_new (L : RecycleIndexList R) (used : R → Nat → Prop)
    (wf : R → Nat → Prop) (hC : L.Contract used wf) (K : SceneKey) (r0 : R)
    (hwf0 : wf r0 0) (s0 : Scene R) (hnew : Scene.new L r0 K = some s0) :
    SlotsInv used wf K s0 := by
  obtain ⟨s0', hnew', _, hcms, hwf, _⟩ := new_facts L used wf hC K r0 hwf0
  rw [hnew] at hnew'
  injection hnew' with hnew'
  subst hnew'
  refine ⟨hwf, by rw [hcms, List.length_replicate], ?_⟩
  intro t c hc
  rw [hcms, List.getElem?_replicate] at hc
  split at hc
  · injection hc with hc
    cases hc
  · cases hc

/-- C20: from a freshly constructed scene, after any run of `CreateEntity`,
`RemoveEntity`, `Create` and `Remove` calls on live entities and of registrations of
empty stores at the index of their own component type: every registered store sits
at the index of its component type, and for every index `i` inside it, if bit
`Component<T>::index` of the mask of entity `i` is not set, or `i` is not a live
entity, the slot at `i` holds the default value of `T`. -/
theorem slots_default_unless_owned (L : RecycleIndexList R) (used : R → Nat → Prop)
    (wf : R → Nat → Prop) (hC : L.Contract used wf) (K : SceneKey)
    (hK : K.max_component_types ≤ 64) (r0 : R) (hwf0 : wf r0 0) (s0 s : Scene R)
    (hnew : Scene.new L r0 K = some s0) (hrun : Steps L used K True s0 s) :
    ∀ (t : Nat) (cm : ComponentListBase), s.m_list_cm_lists[t]? = some (some cm) →
      cm.list.index = t ∧
      ∀ i, i < cm.list.m_list_data.length →
        ((∀ e, s.entities[i]? = some e → e.mask.testBit cm.list.index = false) ∨
          ¬ live used s i) →
        cm.list.m_list_data[i]? = some (@default _ cm.inst) := by
  have hinv := Steps_invariant L used K True (SlotsInv used wf K)
    (fun s s' => Step_keeps_SlotsInv L used wf hC K hK s s') s0 s
    (SlotsInv_new L used wf hC K r0 hwf0 s0 hnew) hrun
  intro t cm hcm
  obtain ⟨hidx, hslots⟩ := hinv.2.2 t cm hcm
  refine ⟨hidx, fun i hi hcond => hslots i hi ?_⟩
  rintro ⟨hl, e, he, hb⟩
  rcases hcond with h | h
  · rw [hidx] at h
    rw [h e he] at hb
    cases hb
  · exact h hl

/-! ## Sample run -/

theorem sampleStart_new :
    Scene.new stackRecycler (0, []) { max_component_types := 8 } = some sampleStart :=
  rfl

theorem sampleWithEntity_live : live stackRecycler.used sampleWithEntity 1 :=
  ⟨⟨by decide, by decide⟩, _, rfl, rfl⟩

/-- The sample run: register the store, create an entity, create its component. -/
theorem sampleRun (strict : Prop) :
    Steps stackRecycler stackRecycler.used { max_component_types := 8 } strict
      sampleStart sampleWithComponent :=
  Relation.ReflTransGen.tail
    (Relation.ReflTransGen.tail
      (Relation.ReflTransGen.single
        (Step.register sampleStart sampleRegistered sampleStore rfl rfl))
      (Step.createEntity sampleRegistered))
    (Step.create sampleWithEntity 0 sampleStore 1 (7 : Nat)
      ({ index := 0, m_list_data := (List.replicate 26 0).set 1 7 } : ComponentList Nat)
      [{ valid := false, mask := 0 }, { valid := true, mask := 1 }]
      (fun _ => sampleWithEntity_live) rfl rfl)

/-- C14, at a concrete input: the stack recycler, the sample run. -/
theorem sentinel_entity_witness :
    Steps stackRecycler stackRecycler.used { max_component_types := 8 } False
      sampleStart sampleWithComponent ∧
    ∃ s0, Scene.new stackRecycler (0, []) { max_component_types := 8 } = some s0 ∧
      (∃ e0, s0.entities[0]? = some e0 ∧ e0.valid = false) ∧
      (Steps stackRecycler stackRecycler.used { max_component_types := 8 } False s0
          sampleWithComponent →
        (∃ e0, sampleWithComponent.entities[0]? = some e0 ∧ e0.valid = false) ∧
        (CreateEntity stackRecycler sampleWithComponent).1 ≠ 0 ∧
        0 ∉ sampleWithComponent.GetEntityIdList) :=
  ⟨sampleRun False,
    sentinel_entity stackRecycler stackRecycler.used stackRecycler.wf stackRecycler_contract
      { max_component_types := 8 } False (0, [])
      ⟨rfl, List.nodup_nil, fun k hk => absurd hk (List.not_mem_nil k)⟩ sampleWithComponent⟩

/-- C20, at a concrete input: the stack recycler, the sample run. -/
theorem slots_default_unless_owned_witness :
    (Scene.new stackRecycler (0, []) { max_component_types := 8 } = some sampleStart ∧
      Steps stackRecycler stackRecycler.used { max_component_types := 8 } True
        sampleStart sampleWithComponent) ∧
    ∀ (t : Nat) (cm : ComponentListBase),
      sampleWithComponent.m_list_cm_lists[t]? = some (some cm) →
      cm.list.index = t ∧
      ∀ i, i < cm.list.m_list_data.length →
        ((∀ e, sampleWithComponent.entities[i]? = some e →
            e.mask.testBit cm.list.index = false) ∨
          ¬ live stackRecycler.used sampleWithComponent i) →
        cm.list.m_list_data[i]? = some (@default _ cm.inst) :=
  ⟨⟨sampleStart_new, sampleRun True⟩,
    slots_default_unless_owned stackRecycler stackRecycler.used stackRecycler.wf
      stackRecycler_contract { max_component_types := 8 } (by decide) (0, [])
      ⟨rfl, List.nodup_nil, fun k hk => absurd hk (List.not_mem_nil k)⟩
      sampleStart sampleWithComponent sampleStart_new (sampleRun True)⟩

/-! ## Runs of calls: the capacity of a store stays above the ids created in it -/

end Scene

end ks.ecs

namespace ks.ecs.Scene

/-! ## Registration of component stores -/

variable {R : Type}

theorem new_cm_lists (L : RecycleIndexList R) (r0 : R) (K : SceneKey) (s0 : Scene R)
    (hnew : Scene.new L r0 K = some s0) :
    s0.m_list_cm_lists = List.replicate K.max_component_types none := by
  unfold Scene.new at hnew
  simp only at hnew
  split at hnew
  · cases hnew
  · injection hnew with hnew
    subst hnew
    rfl

/-- C21: in a scene whose array of stores has `max_component_types` slots, for a
component type of index `idx` below `max_component_types`: `RegisterComponentList`
returns and leaves the slot of every other index, the entity records and the recycler
as they were; when the slot is empty (`GetComponentList` returns null) the slot holds
`h` afterwards, and a second registration of `h2` changes nothing, so that
`GetComponentList` still returns `h`; in a freshly constructed scene
`GetComponentList` returns null. -/
theorem RegisterComponentList_first_wins (K : SceneKey) (s : Scene R) (idx : Nat)
    (h h2 : ComponentListBase)
    (hlen : s.m_list_cm_lists.length = K.max_component_types)
    (hidx : idx < K.max_component_types) :
    (∃ s1, s.RegisterComponentList idx h = some s1 ∧
      (∀ j, j ≠ idx → s1.GetComponentList j = s.GetComponentList j) ∧
      s1.entities = s.entities ∧ s1.recycler = s.recycler ∧
      s1.m_list_cm_lists.length = K.max_component_types) ∧
    (s.GetComponentList idx = some none →
      ∃ s1, s.RegisterComponentList idx h = some s1 ∧
        s1.GetComponentList idx = some (some h) ∧
        s1.RegisterComponentList idx h2 = some s1) ∧
    (∀ (L : RecycleIndexList R) (r0 : R) (s0 : Scene R),
      Scene.new L r0 K = some s0 → s0.GetComponentList idx = some none) := by
  have hlt : idx < s.m_list_cm_lists.length := by rw [hlen]; exact hidx
  refine ⟨?_, ?_, ?_⟩
  · unfold RegisterComponentList GetComponentList
    cases hc : s.m_list_cm_lists[idx]? with
    | none =>
      rw [List.getElem?_eq_none_iff] at hc
      omega
    | some o =>
      cases o with
      | none =>
        refine ⟨_, rfl, fun j hj => ?_, rfl, rfl, ?_⟩
        · exact List.getElem?_set_ne (Ne.symm hj)
        · show (s.m_list_cm_lists.set idx _).length = _
          rw [List.length_set]; exact hlen
      | some c => exact ⟨s, rfl, fun _ _ => rfl, rfl, rfl, hlen⟩
  · intro hempty
    unfold GetComponentList at hempty
    have hget : (s.m_list_cm_lists.set idx (some h))[idx]? = some (some h) :=
      List.getElem?_set_self hlt
    refine ⟨{ s with m_list_cm_lists := s.m_list_cm_lists.set idx (some h) }, ?_, hget, ?_⟩
    · unfold RegisterComponentList
      rw [hempty]
    · unfold RegisterComponentList
      simp only [hget]
  · intro L r0 s0 hnew
    unfold GetComponentList
    rw [new_cm_lists L r0 K s0 hnew, List.getElem?_replicate, if_pos hidx]

/-- C21, at a concrete input: the sample store is registered at index 0 of the scene
right after construction, then a second store is offered. -/
theorem RegisterComponentList_first_wins_witness :
    (∃ s1, sampleStart.RegisterComponentList 0 sampleStore = some s1 ∧
      (∀ j, j ≠ 0 → s1.GetComponentList j = sampleStart.GetComponentList j) ∧
      s1.entities = sampleStart.entities ∧ s1.recycler = sampleStart.recycler ∧
      s1.m_list_cm_lists.length = 8) ∧
    (sampleStart.GetComponentList 0 = some none →
      ∃ s1, sampleStart.RegisterComponentList 0 sampleStore = some s1 ∧
        s1.GetComponentList 0 = some (some sampleStore) ∧
        s1.RegisterComponentList 0
          { ComponentType := Bool, list := { index := 0, m_list_data := [] } } = some s1) ∧
    (∀ (L : RecycleIndexList (Nat × List Nat)) (r0 : Nat × List Nat)
        (s0 : Scene (Nat × List Nat)),
      Scene.new L r0 { max_component_types := 8 } = some s0 →
        s0.GetComponentList 0 = some none) :=
  RegisterComponentList_first_wins { max_component_types := 8 } sampleStart 0 sampleStore
    { ComponentType := Bool, list := { index := 0, m_list_data := [] } } rfl (by decide)

end ks.ecs.Scene

namespace ks.ecs.detail

/-! ## The mask type is wide enough -/

theorem maskBit_eq (K : SceneKey) (i : Nat) (hi : i < MaskBits K) :
    maskBit K i = 1 <<< i := by
  unfold maskBit toMask
  rw [Nat.one_shiftLeft]
  exact Nat.mod_eq_of_lt (Nat.pow_lt_pow_right (by decide) hi)

/-- C22: for `max_component_types` up to 64 the width of the mask type selected by
`GetMaskTypeIndex` is at least `max_component_types`. So for every index `i` below
`max_component_types` the value `Mask(1) << i` is stored without truncation, it is not
0 and has bit `i` set and no other; distinct indices give distinct values; and for
indices below `max_component_types` the bitset built by `GetComponentMask` converts
with `to_ulong` and casts to the mask type without losing a bit. -/
theorem mask_wide_enough (K : SceneKey) (hK : K.max_component_types ≤ 64) :
    K.max_component_types ≤ MaskBits K ∧
    (∀ i, i < K.max_component_types →
      maskBit K i = 1 <<< i ∧ maskBit K i ≠ 0 ∧
      ∀ j, (maskBit K i).testBit j = decide (i = j)) ∧
    (∀ i j, i < K.max_component_types → j < K.max_component_types → i ≠ j →
      maskBit K i ≠ maskBit K j) ∧
    (∀ args : List Nat, (∀ i ∈ args, i < K.max_component_types) →
      ∃ bits, GetComponentMaskBitSet K args = some bits ∧
        bitsetToUlong bits = some bits ∧ toMask K bits = bits ∧
        GetComponentMask K args = some bits) := by
  have hw := le_MaskBits K hK
  have hbit : ∀ i, i < K.max_component_types →
      ∀ j, (maskBit K i).testBit j = decide (i = j) := by
    intro i hi j
    rw [testBit_maskBit]
    by_cases hij : i = j
    · subst hij
      have : i < MaskBits K := by omega
      simp [this]
    · simp [hij]
  refine ⟨hw, ?_, ?_, ?_⟩
  · intro i hi
    refine ⟨maskBit_eq K i (by omega), ?_, hbit i hi⟩
    intro h0
    have := hbit i hi i
    rw [h0, Nat.zero_testBit] at this
    simp at this
  · intro i j hi hj hij heq
    have h1 := hbit i hi i
    rw [heq, hbit j hj i] at h1
    have hji : ¬ j = i := fun h => hij h.symm
    simp [hji] at h1
  · intro args hargs
    have hlt := foldl_or_lt args K.max_component_types hargs
    have h64 : args.foldl (fun m i => m ||| 1 <<< i) 0 < 2 ^ 64 :=
      lt_of_lt_of_le hlt (Nat.pow_le_pow_right (by decide) hK)
    have hmask : args.foldl (fun m i => m ||| 1 <<< i) 0 < 2 ^ MaskBits K :=
      lt_of_lt_of_le hlt (Nat.pow_le_pow_right (by decide) hw)
    refine ⟨_, ?_, ?_, ?_, GetComponentMask_eq K hK args hargs⟩
    · unfold GetComponentMaskBitSet
      exact GetComponentMaskBitSet_foldl K args hargs 0
    · unfold bitsetToUlong
      rw [if_pos h64]
    · unfold toMask
      exact Nat.mod_eq_of_lt hmask

/-- C22, at a concrete input: 20 component types, for which the mask type has 64
bits. -/
theorem mask_wide_enough_witness :
    20 ≤ MaskBits { max_component_types := 20 } ∧
    (∀ i, i < 20 →
      maskBit { max_component_types := 20 } i = 1 <<< i ∧
      maskBit { max_component_types := 20 } i ≠ 0 ∧
      ∀ j, (maskBit { max_component_types := 20 } i).testBit j = decide (i = j)) ∧
    (∀ i j, i < 20 → j < 20 → i ≠ j →
      maskBit { max_component_types := 20 } i ≠ maskBit { max_component_types := 20 } j) ∧
    (∀ args : List Nat, (∀ i ∈ args, i < 20) →
      ∃ bits, GetComponentMaskBitSet { max_component_types := 20 } args = some bits ∧
        bitsetToUlong bits = some bits ∧
        toMask { max_component_types := 20 } bits = bits ∧
        GetComponentMask { max_component_types := 20 } args = some bits) :=
  mask_wide_enough { max_component_types := 20 } (by decide)

end ks.ecs.detail
